import Mathlib

/-!
# Verification of the MinaID hologram-verification pipeline

Shallow embedding of the core pipeline of `hologram_verification/src`:
`ChromaticityAccumulator`, `DynamicBehaviorVerifier`, `FrameAligner`
(reference handling), the coordinator `HologramVerifier` and its
non-maximum suppression.

Modelling conventions:
* 8-bit channel values are `ℕ` (intended range 0..255); float arithmetic is
  modelled exactly over `ℚ` (the float constants `1e-6`, `0.2`, ... become
  the corresponding rationals).
* numpy arrays are flattened row-major `List`s; the array shape is carried
  explicitly in the `Frame` structure.
* External OpenCV primitives that the repository only calls (feature
  detection, matching/homography, HSV conversion, the single-frame HSV
  selector) are parameters of the embedded functions; the morphology and
  connected-component primitives are modelled by their standard definitions
  (constant border: out-of-range pixels are `false` for dilation, `true`
  for erosion; 8-connectivity components labelled by least row-major index).
* Python `raise` inside a method is modelled by returning the mutated-so-far
  state together with a failure flag / `none` result: in CPython the object
  mutations performed before the `raise` persist.
-/

namespace MinaID

attribute [local semireducible] Rat.mul Rat.inv Rat.add Rat.sub

/-- A pixel: three 8-bit channels. For BGR frames `c0,c1,c2 = B,G,R`;
for HSV frames `c0,c1,c2 = H,S,V`. -/
structure Pix where
  c0 : ℕ
  c1 : ℕ
  c2 : ℕ
deriving DecidableEq, Repr

instance : Inhabited Pix := ⟨⟨0, 0, 0⟩⟩

/-- A frame: `hgt × wid` grid of pixels, flattened row-major. -/
structure Frame where
  hgt : ℕ
  wid : ℕ
  px : List Pix
deriving DecidableEq, Repr

instance : Inhabited Frame := ⟨⟨0, 0, []⟩⟩

/-- A pixel is well formed when all channels are 8-bit values. -/
def Pix.WF (p : Pix) : Prop := p.c0 ≤ 255 ∧ p.c1 ≤ 255 ∧ p.c2 ≤ 255

instance (p : Pix) : Decidable p.WF := by unfold Pix.WF; infer_instance

/-- A frame is well formed when its pixel list matches its shape and all
pixels are 8-bit. -/
def Frame.WF (f : Frame) : Prop :=
  f.px.length = f.hgt * f.wid ∧ ∀ p ∈ f.px, p.WF

/-- `l.getD i d`, the element of `l` at `i` or the default: it is either a
member of `l` or the default itself. -/
theorem List.getD_mem_or_default {α : Type _} (l : List α) (i : ℕ) (d : α) :
    l.getD i d ∈ l ∨ l.getD i d = d := by
  induction l generalizing i with
  | nil => right; simp [List.getD]
  | cons a t ih =>
    cases i with
    | zero => left; simp [List.getD]
    | succ j =>
      rcases ih j with h | h
      · left; simp only [List.getD_cons_succ]; exact List.mem_cons_of_mem a h
      · right; simpa [List.getD_cons_succ] using h

/-- Sum of a list of rationals. -/
def sumQ (l : List ℚ) : ℚ := l.foldr (· + ·) 0

/-- Maximum entry of a list of rationals (`0` for the empty list; the
embedded maps are only maximised when nonempty, matching `np.max`). -/
def maxQ (l : List ℚ) : ℚ := l.foldr max 0

theorem le_maxQ {l : List ℚ} {x : ℚ} (hx : x ∈ l) : x ≤ maxQ l := by
  induction l with
  | nil => cases hx
  | cons a t ih =>
    rcases List.mem_cons.mp hx with rfl | h
    · exact le_max_left _ _
    · exact le_trans (ih h) (le_max_right _ _)

/-- `np.var`: population variance, `0` on the empty list. -/
def varQ (l : List ℚ) : ℚ :=
  if l.length = 0 then 0
  else
    let μ := sumQ l / l.length
    sumQ (l.map (fun x => (x - μ) ^ 2)) / l.length

/-- Appending to a `collections.deque(maxlen := m)`: append on the right,
drop from the left on overflow. -/
def ringAppend {α : Type _} (m : ℕ) (l : List α) (a : α) : List α :=
  let l' := l ++ [a]
  if m < l'.length then l'.drop (l'.length - m) else l'

theorem ringAppend_length {α : Type _} (m n : ℕ) (l : List α) (a : α)
    (h : l.length = min n m) : (ringAppend m l a).length = min (n + 1) m := by
  unfold ringAppend
  simp only [List.length_append, List.length_cons, List.length_nil]
  split
  · rename_i hlt
    rw [List.length_drop]
    simp only [List.length_append, List.length_cons, List.length_nil] at hlt ⊢
    omega
  · rename_i hge
    simp only [List.length_append, List.length_cons, List.length_nil] at hge ⊢
    omega

/-! ## ChromaticityAccumulator (`chromaticity_accumulator.py`) -/

/-- The float tolerance `epsilon = 1e-6` used throughout the accumulator. -/
def epsQ : ℚ := 1 / 1000000

/-- `cv2.cvtColor(BGR2GRAY)`: `0.299 R + 0.587 G + 0.114 B` (the 8-bit
rounding of OpenCV is immaterial here: the value only gates the validity
mask via `< 250`). -/
def grayOf (p : Pix) : ℚ :=
  (299 / 1000) * p.c2 + (587 / 1000) * p.c1 + (114 / 1000) * p.c0

/-- Red channel of a BGR pixel scaled to `[0,1]` (`astype(float32)/255`). -/
def chR (p : Pix) : ℚ := (p.c2 : ℚ) / 255

/-- Green channel scaled to `[0,1]`. -/
def chG (p : Pix) : ℚ := (p.c1 : ℚ) / 255

/-- Blue channel scaled to `[0,1]`. -/
def chB (p : Pix) : ℚ := (p.c0 : ℚ) / 255

/-- `max(R,G,B)` of the scaled channels. -/
def maxRGB (p : Pix) : ℚ := max (max (chR p) (chG p)) (chB p)

/-- `min(R,G,B)` of the scaled channels. -/
def minRGB (p : Pix) : ℚ := min (min (chR p) (chG p)) (chB p)

/-- Saturation `np.where(max_rgb > epsilon, (max_rgb - min_rgb)/max_rgb, 0)`
from `_compute_chromaticity_vector`. -/
def satOf (p : Pix) : ℚ :=
  if maxRGB p > epsQ then (maxRGB p - minRGB p) / maxRGB p else 0

/-- `R >= G and R >= B` (the `r_dominant` mask). -/
def rDominant (p : Pix) : Prop := chG p ≤ chR p ∧ chB p ≤ chR p

/-- `G >= R and G >= B` (the `g_dominant` mask). -/
def gDominant (p : Pix) : Prop := chR p ≤ chG p ∧ chB p ≤ chG p

instance (p : Pix) : Decidable (rDominant p) := by unfold rDominant; infer_instance

instance (p : Pix) : Decidable (gDominant p) := by unfold gDominant; infer_instance

/-- The chromaticity scalar of `_compute_chromaticity_vector`: the three
masked assignments are applied in order (R, then G, then B dominant), so a
later assignment overwrites an earlier one on overlapping masks; pixels
with `saturation ≤ epsilon` keep the initial `0`. -/
def chromaOf (p : Pix) : ℚ :=
  if satOf p > epsQ then
    if ¬ rDominant p ∧ ¬ gDominant p then
      (chR p - chG p) / (satOf p + epsQ) + 4
    else if gDominant p then
      (chB p - chR p) / (satOf p + epsQ) + 2
    else
      (chG p - chB p) / (satOf p + epsQ)
  else 0

/-- Validity mask of `add_frame`:
`(S > saturation_threshold) & (gray < highlight_threshold)`. -/
def validPix (satThr highThr : ℚ) (p : Pix) : Bool :=
  decide (satOf p > satThr) && decide (grayOf p < highThr)

/-- State of a `ChromaticityAccumulator`. The three statistics arrays are
`None` until lazily initialised from the first frame's shape; `shape`
records the numpy array shape fixed at that initialisation. -/
structure AccState where
  buffer_size : ℕ
  saturation_threshold : ℚ
  highlight_threshold : ℚ
  frame_buffer : List Frame
  s_max : Option (List ℚ)
  c_sum : Option (List ℚ)
  n_count : Option (List ℕ)
  shape : ℕ × ℕ
  initialized : Bool
  frame_count : ℕ
deriving DecidableEq, Repr

/-- `ChromaticityAccumulator.__init__`. -/
def ChromaticityAccumulator.init (buffer_size : ℕ) (saturation_threshold : ℚ)
    (highlight_threshold : ℚ) : AccState :=
  { buffer_size := buffer_size
    saturation_threshold := saturation_threshold
    highlight_threshold := highlight_threshold
    frame_buffer := []
    s_max := none
    c_sum := none
    n_count := none
    shape := (0, 0)
    initialized := false
    frame_count := 0 }

/-- The statistics list held in `s_max` (empty before initialisation). -/
def AccState.smList (s : AccState) : List ℚ := s.s_max.getD []

/-- The statistics list held in `c_sum`. -/
def AccState.csList (s : AccState) : List ℚ := s.c_sum.getD []

/-- The statistics list held in `n_count`. -/
def AccState.nList (s : AccState) : List ℕ := s.n_count.getD []

/-- `S_max[i]` (default `0` out of range). -/
def AccState.smAt (s : AccState) (i : ℕ) : ℚ := s.smList.getD i 0

/-- `C_sum[i]`. -/
def AccState.csAt (s : AccState) (i : ℕ) : ℚ := s.csList.getD i 0

/-- `N[i]`. -/
def AccState.nAt (s : AccState) (i : ℕ) : ℕ := s.nList.getD i 0

/-- `ChromaticityAccumulator.add_frame`: lazy initialisation, ring append,
per-pixel statistics update. -/
def AccState.addFrame (s : AccState) (frame : Frame) : AccState :=
  let s1 :=
    if s.initialized then s
    else
      { s with
        s_max := some (List.replicate frame.px.length 0)
        c_sum := some (List.replicate frame.px.length 0)
        n_count := some (List.replicate frame.px.length 0)
        shape := (frame.hgt, frame.wid)
        initialized := true }
  let C := frame.px.map chromaOf
  let S := frame.px.map satOf
  let valid := frame.px.map (validPix s.saturation_threshold s.highlight_threshold)
  { s1 with
    frame_buffer := ringAppend s1.buffer_size s1.frame_buffer frame
    frame_count := s1.frame_count + 1
    s_max := some (List.zipWith max s1.smList S)
    c_sum := some (List.zipWith (fun (vc : Bool × ℚ) old =>
      if vc.1 then old + vc.2 else old) (valid.zip C) s1.csList)
    n_count := some (List.zipWith (fun (v : Bool) old =>
      if v then old + 1 else old) valid s1.nList) }

/-- `ChromaticityAccumulator.reset`. The `shape` bookkeeping reverts to its
placeholder: it models the shape of the numpy arrays, which are dropped. -/
def AccState.reset (s : AccState) : AccState :=
  { s with
    frame_buffer := []
    s_max := none
    c_sum := none
    n_count := none
    shape := (0, 0)
    initialized := false
    frame_count := 0 }

/-- `generate_hologram_map(normalize=False)`: mean chromaticity magnitude,
normalisation by its maximum, `S_max * (1 - M_normalized)`, and zeroing of
rarely observed pixels. -/
def AccState.generateHologramMap (s : AccState) : List ℚ :=
  if s.initialized = false ∨ s.frame_count = 0 then
    List.replicate (480 * 640) 0
  else
    let meanC := List.zipWith (fun c (n : ℕ) =>
      if 0 < n then c / ((n : ℚ) + epsQ) else 0) s.csList s.nList
    let M := meanC.map (fun x => |x|)
    let Mmax := if maxQ M > epsQ then maxQ M else 1
    let Mnorm := M.map (· / Mmax)
    let hm := List.zipWith (fun sm m => sm * (1 - m)) s.smList Mnorm
    let minObs := max (s.buffer_size / 3) 5
    List.zipWith (fun h (n : ℕ) => if n < minObs then 0 else h) hm s.nList

/-- `generate_hologram_map(normalize=True)`: the `normalize=False` map
rescaled to 8-bit (`(map / max * 255).astype(uint8)` truncates). -/
def AccState.generateHologramMapN (s : AccState) : List ℕ :=
  let hm := s.generateHologramMap
  if maxQ hm > epsQ then hm.map (fun v => (v / maxQ hm * 255).floor.toNat)
  else List.replicate hm.length 0

/-! ### Morphology and connected components

`get_hologram_regions` calls `cv2.morphologyEx` with a 5×5 elliptical
structuring element and `cv2.connectedComponentsWithStats` with
8-connectivity; these OpenCV primitives are modelled by their standard
definitions below. -/

/-- The kernel offsets of `cv2.getStructuringElement(MORPH_ELLIPSE, (5,5))`
relative to the centre anchor. -/
def ellipse5 : List (ℤ × ℤ) :=
  [(-2, 0),
   (-1, -2), (-1, -1), (-1, 0), (-1, 1), (-1, 2),
   (0, -2), (0, -1), (0, 0), (0, 1), (0, 2),
   (1, -2), (1, -1), (1, 0), (1, 1), (1, 2),
   (2, 0)]

/-- Value of a binary image at (row, col), out-of-range reads giving the
border value `dflt`. -/
def gridAt (wid : ℕ) (g : List Bool) (dflt : Bool) (i j : ℤ) : Bool :=
  if 0 ≤ i ∧ 0 ≤ j ∧ j < (wid : ℤ) then g.getD (i.toNat * wid + j.toNat) dflt
  else dflt

/-- Binary dilation by `ellipse5` (constant `false` border). -/
def dilateB (hgt wid : ℕ) (g : List Bool) : List Bool :=
  (List.range (hgt * wid)).map (fun idx =>
    ellipse5.any (fun o =>
      gridAt wid g false ((idx / wid : ℕ) + o.1) ((idx % wid : ℕ) + o.2)))

/-- Binary erosion by `ellipse5` (constant `true` border). -/
def erodeB (hgt wid : ℕ) (g : List Bool) : List Bool :=
  (List.range (hgt * wid)).map (fun idx =>
    ellipse5.all (fun o =>
      gridAt wid g true ((idx / wid : ℕ) + o.1) ((idx % wid : ℕ) + o.2)))

/-- `cv2.morphologyEx(… , cv2.MORPH_CLOSE, kernel)`. -/
def morphClose (hgt wid : ℕ) (g : List Bool) : List Bool :=
  erodeB hgt wid (dilateB hgt wid g)

/-- `cv2.morphologyEx(… , cv2.MORPH_OPEN, kernel)`. -/
def morphOpen (hgt wid : ℕ) (g : List Bool) : List Bool :=
  dilateB hgt wid (erodeB hgt wid g)

/-- The 8-neighbourhood of a flattened index. -/
def neighbors8 (hgt wid : ℕ) (idx : ℕ) : List ℕ :=
  ([(-1, -1), (-1, 0), (-1, 1), (0, -1), (0, 1), (1, -1), (1, 0), (1, 1)] :
      List (ℤ × ℤ)).filterMap (fun o =>
    let i : ℤ := (idx / wid : ℕ) + o.1
    let j : ℤ := (idx % wid : ℕ) + o.2
    if 0 ≤ i ∧ i < (hgt : ℤ) ∧ 0 ≤ j ∧ j < (wid : ℤ) then
      some (i.toNat * wid + j.toNat)
    else none)

/-- One relaxation step of minimum-label propagation: every foreground
pixel takes the least label among itself and its foreground 8-neighbours;
background pixels carry the sentinel `hgt*wid`. -/
def ccStep (hgt wid : ℕ) (g : List Bool) (lab : List ℕ) : List ℕ :=
  (List.range (hgt * wid)).map (fun idx =>
    if g.getD idx false then
      (neighbors8 hgt wid idx).foldl (fun m j =>
        if g.getD j false then min m (lab.getD j (hgt * wid)) else m)
        (lab.getD idx (hgt * wid))
    else hgt * wid)

/-- Connected-component labels (8-connectivity): each foreground pixel is
labelled by the least flattened index of its component, obtained as the
fixed point of `ccStep` (reached after at most `hgt*wid` steps). -/
def ccLabels (hgt wid : ℕ) (g : List Bool) : List ℕ :=
  (List.range (hgt * wid)).foldl (fun lab _ => ccStep hgt wid g lab)
    ((List.range (hgt * wid)).map (fun idx => if g.getD idx false then idx else hgt * wid))

/-- Bounding boxes `(x, y, w, h)` and areas of the 8-connected components,
ordered by least member index (row-major first encounter, as
`cv2.connectedComponentsWithStats` numbers labels). -/
def componentStats (hgt wid : ℕ) (g : List Bool) : List ((ℤ × ℤ × ℤ × ℤ) × ℕ) :=
  let lab := ccLabels hgt wid g
  (List.range (hgt * wid)).filterMap (fun l =>
    let idxs := (List.range (hgt * wid)).filter (fun idx => lab.getD idx (hgt * wid) = l)
    if l ∈ lab ∧ idxs ≠ [] then
      let xs := idxs.map (· % wid)
      let ys := idxs.map (· / wid)
      let x0 := xs.foldr min wid
      let y0 := ys.foldr min hgt
      let x1 := xs.foldr max 0
      let y1 := ys.foldr max 0
      some (((x0 : ℤ), (y0 : ℤ), (x1 - x0 + 1 : ℤ), (y1 - y0 + 1 : ℤ)), idxs.length)
    else none)

/-- The binarisation level of `get_hologram_regions`:
`threshold * np.max(map) if np.max(map) > 0 else 0.1`. -/
def regionsThresholdValue (hm : List ℚ) (threshold : ℚ) : ℚ :=
  if maxQ hm > 0 then threshold * maxQ hm else 1 / 10

/-- `ChromaticityAccumulator.get_hologram_regions`: binarise the
non-normalised hologram map, close then open with the 5×5 ellipse, and
return the bounding boxes of 8-connected components of area `> 100`. -/
def AccState.getHologramRegions (s : AccState) (threshold : ℚ) :
    List (ℤ × ℤ × ℤ × ℤ) :=
  let hm := s.generateHologramMap
  let hw := if s.initialized = false ∨ s.frame_count = 0 then (480, 640) else s.shape
  let tv := regionsThresholdValue hm threshold
  let binary := hm.map (fun v => decide (v > tv))
  let binary := morphClose hw.1 hw.2 binary
  let binary := morphOpen hw.1 hw.2 binary
  let min_area := 100
  (componentStats hw.1 hw.2 binary).filterMap (fun bs =>
    if bs.2 > min_area then some bs.1 else none)

/-- The regions operation as the (amended) spec describes it: binarise at
`threshold × max(score)` when the score map attains a positive value and at
`0.1` otherwise, dilate-then-erode (close), erode-then-dilate (open) with
the 5×5 elliptical kernel, and keep the bounding box of each 8-connected
component whose area exceeds 100 pixels. -/
def regionsSpecAmended (s : AccState) (threshold : ℚ) : List (ℤ × ℤ × ℤ × ℤ) :=
  let score := s.generateHologramMap
  let hw := if s.initialized = false ∨ s.frame_count = 0 then (480, 640) else s.shape
  let level := if 0 < maxQ score then threshold * maxQ score else 1 / 10
  let mask := score.map (fun v => decide (level < v))
  let closed := erodeB hw.1 hw.2 (dilateB hw.1 hw.2 mask)
  let opened := dilateB hw.1 hw.2 (erodeB hw.1 hw.2 closed)
  (componentStats hw.1 hw.2 opened).filterMap (fun bs =>
    if 100 < bs.2 then some bs.1 else none)

/-! ## DynamicBehaviorVerifier (`dynamic_behavior_verifier.py`) -/

/-- Insert into a sorted list (ascending). -/
def insSorted (a : ℕ) : List ℕ → List ℕ
  | [] => [a]
  | b :: t => if a ≤ b then a :: b :: t else b :: insSorted a t

/-- Insertion sort, ascending. -/
def sortAsc (l : List ℕ) : List ℕ := l.foldr insSorted []

/-- `np.median` of a list of 8-bit values followed by `astype(np.uint8)`:
sort, take the middle element (odd length) or the truncated average of the
two middle elements (even length). -/
def medianNat (l : List ℕ) : ℕ :=
  let s := sortAsc l
  let n := s.length
  if n % 2 = 1 then s.getD (n / 2) 0
  else (s.getD (n / 2 - 1) 0 + s.getD (n / 2) 0) / 2

/-- Per-pixel, per-channel median of a stack of frames
(`np.median(frame_stack, axis=0).astype(np.uint8)`); shape taken from the
first frame. -/
def medianFrames (l : List Frame) : Frame :=
  match l with
  | [] => ⟨0, 0, []⟩
  | f :: _ =>
    ⟨f.hgt, f.wid,
      (List.range f.px.length).map (fun i =>
        ⟨medianNat (l.map (fun g => (g.px.getD i default).c0)),
         medianNat (l.map (fun g => (g.px.getD i default).c1)),
         medianNat (l.map (fun g => (g.px.getD i default).c2))⟩)⟩

/-- State of a `DynamicBehaviorVerifier` (the optional SGD classifier is
kept abstract: only its trained/untrained flag is observable on this
code path). -/
structure VerState where
  background_frames : ℕ
  use_classifier : Bool
  hue_energy_threshold : ℚ
  frame_buffer : List Frame
  background_model : Option Frame
  classifier_trained : Bool
  frame_count : ℕ
deriving DecidableEq, Repr

/-- `DynamicBehaviorVerifier.__init__`. -/
def DynamicBehaviorVerifier.init (background_frames : ℕ) (use_classifier : Bool)
    (hue_energy_threshold : ℚ) : VerState :=
  { background_frames := background_frames
    use_classifier := use_classifier
    hue_energy_threshold := hue_energy_threshold
    frame_buffer := []
    background_model := none
    classifier_trained := false
    frame_count := 0 }

/-- `DynamicBehaviorVerifier._update_background_model`: no update below 3
buffered frames, otherwise the per-pixel median of the buffer. -/
def VerState.updateBackgroundModel (s : VerState) : VerState :=
  if s.frame_buffer.length < 3 then s
  else { s with background_model := some (medianFrames s.frame_buffer) }

/-- `DynamicBehaviorVerifier.add_frame`: ring append, then recompute the
background model once `len(frame_buffer) >= background_frames // 2`. -/
def VerState.addFrame (s : VerState) (frame : Frame) : VerState :=
  let s := { s with
    frame_buffer := ringAppend s.background_frames s.frame_buffer frame
    frame_count := s.frame_count + 1 }
  if s.background_frames / 2 ≤ s.frame_buffer.length then s.updateBackgroundModel
  else s

/-- `DynamicBehaviorVerifier.reset`. -/
def VerState.reset (s : VerState) : VerState :=
  { s with frame_buffer := [], background_model := none, frame_count := 0 }

/-- `cv2.absdiff` of two equally shaped frames. -/
def absdiffF (a b : Frame) : Frame :=
  ⟨a.hgt, a.wid,
    List.zipWith (fun p q =>
      ⟨max p.c0 q.c0 - min p.c0 q.c0,
       max p.c1 q.c1 - min p.c1 q.c1,
       max p.c2 q.c2 - min p.c2 q.c2⟩) a.px b.px⟩

/-- An all-zero frame of the same shape (`np.zeros_like`). -/
def zerosLike (f : Frame) : Frame :=
  ⟨f.hgt, f.wid, List.replicate f.px.length default⟩

/-- `DynamicBehaviorVerifier.compute_difference_image`; `toHSV` is the
external `cv2.cvtColor(·, COLOR_BGR2HSV)`. -/
def VerState.computeDifferenceImage (toHSV : Frame → Frame) (s : VerState)
    (current : Frame) : Frame × Frame :=
  match s.background_model with
  | none => (zerosLike current, zerosLike current)
  | some bg => (absdiffF current bg, absdiffF (toHSV current) (toHSV bg))

/-- The pixels of `frame` covered by the mask rectangle
`mask[y:y+h, x:x+w] = 255` (row-major order; candidate boxes have
non-negative coordinates, so numpy slicing clips at the image border). -/
def Frame.regionPixels (f : Frame) (x y w h : ℤ) : List Pix :=
  ((List.range f.hgt).filter (fun (i : ℕ) => decide (y ≤ (i : ℤ) ∧ (i : ℤ) < y + h))).flatMap
    (fun (i : ℕ) =>
      ((List.range f.wid).filter (fun (j : ℕ) => decide (x ≤ (j : ℤ) ∧ (j : ℤ) < x + w))).map
        (fun (j : ℕ) => f.px.getD (i * f.wid + j) default))

/-- `_compute_hue_energy` on the masked region: `np.var(hue)/179²`, `0` on
an empty selection. -/
def regionHueEnergy (pxs : List Pix) : ℚ :=
  if pxs.length = 0 then 0
  else varQ (pxs.map (fun p => (p.c0 : ℚ))) / (179 ^ 2)

/-- The saturation energy term of `verify_region_heuristic`:
`np.var(sat)/255²` when the selection is nonempty, else `0`. -/
def regionSatEnergy (pxs : List Pix) : ℚ :=
  if pxs.length = 0 then 0
  else varQ (pxs.map (fun p => (p.c1 : ℚ))) / (255 ^ 2)

/-- The combined score `0.7 * hue_energy + 0.3 * sat_energy` of
`verify_region_heuristic` for a region of the HSV difference image. -/
def combinedEnergy (pxs : List Pix) : ℚ :=
  (7 / 10) * regionHueEnergy pxs + (3 / 10) * regionSatEnergy pxs

/-- `DynamicBehaviorVerifier.verify_region_heuristic`. -/
def VerState.verifyRegionHeuristic (toHSV : Frame → Frame) (s : VerState)
    (current : Frame) (region : ℤ × ℤ × ℤ × ℤ) : Bool × ℚ :=
  match s.background_model with
  | none => (false, 0)
  | some _ =>
    let diffHsv := (s.computeDifferenceImage toHSV current).2
    let pxs := diffHsv.regionPixels region.1 region.2.1 region.2.2.1 region.2.2.2
    let combined := combinedEnergy pxs
    (decide (combined > s.hue_energy_threshold),
     min (combined / s.hue_energy_threshold) 1)

/-- A verification result record `{bbox, is_hologram, confidence}`. -/
structure Detection where
  bbox : ℤ × ℤ × ℤ × ℤ
  is_hologram : Bool
  confidence : ℚ
deriving DecidableEq, Repr

/-- `DynamicBehaviorVerifier.verify_regions`; `mlVerify` stands for the
trained-classifier path (`verify_region_ml` past its fallback guard),
which is exercised only when `use_classifier ∧ classifier_trained`. -/
def VerState.verifyRegions (toHSV : Frame → Frame)
    (mlVerify : Frame → ℤ × ℤ × ℤ × ℤ → Bool × ℚ) (s : VerState)
    (current : Frame) (regions : List (ℤ × ℤ × ℤ × ℤ)) : List Detection :=
  regions.map (fun region =>
    let r :=
      if s.use_classifier && s.classifier_trained then mlVerify current region
      else s.verifyRegionHeuristic toHSV current region
    { bbox := region, is_hologram := r.1, confidence := r.2 })

/-! ## FrameAligner (`frame_aligner.py`), reference handling -/

/-- State of a `FrameAligner`. Keypoints and descriptor tables are opaque
(`ℕ` tokens) — the repository only measures the keypoint count on this
path. -/
structure AlignerState where
  feature_detector : String
  max_features : ℕ
  reference_frame : Option Frame
  reference_keypoints : Option (List ℕ)
  reference_descriptors : Option ℕ
deriving DecidableEq, Repr

/-- `FrameAligner.__init__` (for a recognised detector name). -/
def FrameAligner.init (feature_detector : String) (max_features : ℕ) : AlignerState :=
  { feature_detector := feature_detector
    max_features := max_features
    reference_frame := none
    reference_keypoints := none
    reference_descriptors := none }

/-- `FrameAligner.set_reference_frame`; `detect` is the external
`detector.detectAndCompute` on the grayscale projection. The keypoint and
descriptor attributes are assigned *before* the feature-count check, so
they are overwritten even when the check fails; the returned flag is
`false` when the `ValueError` ("not enough features") is raised, in which
case `reference_frame` is left unassigned. -/
def AlignerState.setReferenceFrame (detect : Frame → List ℕ × Option ℕ)
    (a : AlignerState) (frame : Frame) : AlignerState × Bool :=
  let kd := detect frame
  let a1 := { a with reference_keypoints := some kd.1, reference_descriptors := kd.2 }
  if kd.2 = none ∨ kd.1.length < 10 then (a1, false)
  else ({ a1 with reference_frame := some frame }, true)

/-! ## Non-maximum suppression (`HologramVerifier._merge_overlapping_regions`) -/

/-- A box in `(x1, y1, x2, y2)` corner format. -/
structure Box4 where
  x1 : ℤ
  y1 : ℤ
  x2 : ℤ
  y2 : ℤ
deriving DecidableEq, Repr

instance : Inhabited Box4 := ⟨⟨0, 0, 0, 0⟩⟩

/-- `(x, y, w, h) → (x, y, x+w, y+h)`. -/
def toXYXY (r : ℤ × ℤ × ℤ × ℤ) : Box4 :=
  ⟨r.1, r.2.1, r.1 + r.2.2.1, r.2.1 + r.2.2.2⟩

/-- `(boxes[:,2]-boxes[:,0]) * (boxes[:,3]-boxes[:,1])`. -/
def area4 (b : Box4) : ℤ := (b.x2 - b.x1) * (b.y2 - b.y1)

/-- Intersection area with the `np.maximum(0, ·)` clamps of the source. -/
def interArea (a b : Box4) : ℤ :=
  max 0 (min a.x2 b.x2 - max a.x1 b.x1) * max 0 (min a.y2 b.y2 - max a.y1 b.y1)

/-- `areas[i] + areas[j] - intersection`. -/
def unionArea (a b : Box4) : ℤ := area4 a + area4 b - interArea a b

/-- `intersection / union` over the rationals (only consumed when the
union is nonzero, mirroring the IEEE behaviour of the source where a `nan`
ratio fails the `<=` comparison). -/
def iou4 (a b : Box4) : ℚ := (interArea a b : ℚ) / (unionArea a b : ℚ)

/-- The survival test `iou <= iou_threshold` applied when box `a` is the
picked box: a `0/0 = nan` ratio compares false, every other ratio is exact
rational arithmetic. -/
def nmsKeepTest (a b : Box4) : Bool :=
  decide (unionArea a b ≠ 0) && decide (iou4 a b ≤ 1 / 2)

/-- Insert index `i` into an index list sorted ascending by `y2`
(`np.argsort(boxes[:, 3])`, modelled as a stable sort — the spec fixes the
tie-break to original insertion order). -/
def insByY2 (boxes : List Box4) (i : ℕ) : List ℕ → List ℕ
  | [] => [i]
  | j :: t =>
    if (boxes.getD i default).y2 ≤ (boxes.getD j default).y2 then i :: j :: t
    else j :: insByY2 boxes i t

/-- `np.argsort(boxes[:, 3])`: indices sorted ascending by `y2`. -/
def argsortY2 (boxes : List Box4) : List ℕ :=
  (List.range boxes.length).foldr (insByY2 boxes) []

/-- The suppression loop: pick the last (largest `y2`) index, keep it, and
retain among the rest only the indices whose IoU with it passes
`iou <= 0.5`. The fuel argument bounds the iteration count (each round
consumes at least one index, so `inds.length` fuel is enough). -/
def nmsLoop (boxes : List Box4) : ℕ → List ℕ → List ℕ
  | 0, _ => []
  | _, [] => []
  | fuel + 1, inds@(_ :: _) =>
    let i := inds.getLastD 0
    let kept := inds.dropLast.filter (fun j =>
      nmsKeepTest (boxes.getD i default) (boxes.getD j default))
    i :: nmsLoop boxes fuel kept

/-- `HologramVerifier._merge_overlapping_regions` with the default
`iou_threshold = 0.5`: convert to corner format, argsort by `y2`, run the
suppression loop, convert back to `(x, y, w, h)`. -/
def HologramVerifier.mergeOverlappingRegions (regions : List (ℤ × ℤ × ℤ × ℤ)) :
    List (ℤ × ℤ × ℤ × ℤ) :=
  if regions.isEmpty then []
  else
    let boxes := regions.map toXYXY
    let keep := nmsLoop boxes boxes.length (argsortY2 boxes)
    keep.map (fun i =>
      let b := boxes.getD i default
      (b.x1, b.y1, b.x2 - b.x1, b.y2 - b.y1))

/-! ## Pipeline coordinator (`hologram_verifier.py`) -/

/-- The external OpenCV / scikit surface the coordinator calls:
feature detection, `FrameAligner.align_frame` (feature matching, RANSAC
homography and warping — its boolean is the only datum the coordinator
consumes), the stateless single-frame `HsvRegionSelector.select_regions`,
BGR→HSV conversion, and the trained-classifier path. -/
structure CVOracle where
  detect : Frame → List ℕ × Option ℕ
  align : AlignerState → Frame → Frame × Bool
  selectRegions : Frame → List (ℤ × ℤ × ℤ × ℤ) × List Bool
  toHSV : Frame → Frame
  mlVerify : Frame → ℤ × ℤ × ℤ × ℤ → Bool × ℚ

/-- State of a `HologramVerifier` coordinator. -/
structure CoordState where
  frame_aligner : AlignerState
  accumulator : AccState
  behavior_verifier : VerState
  update_interval : ℕ
  confidence_threshold : ℚ
  frame_count : ℕ
  reference_set : Bool
  verified_regions : List Detection
  processing_times : List ℚ
  last_hologram_map : Option (List ℕ)
  last_regions : List Detection
deriving DecidableEq, Repr

/-- `HologramVerifier.__init__` (component defaults:
accumulator `saturation_threshold = 0.2`, `highlight_threshold = 250`;
verifier `background_frames = 15`, `hue_energy_threshold = 0.15`;
aligner `max_features = 5000`). -/
def HologramVerifier.init (feature_detector : String) (buffer_size : ℕ)
    (update_interval : ℕ) (use_ml_classifier : Bool)
    (confidence_threshold : ℚ) : CoordState :=
  { frame_aligner := FrameAligner.init feature_detector 5000
    accumulator := ChromaticityAccumulator.init buffer_size (1 / 5) 250
    behavior_verifier := DynamicBehaviorVerifier.init 15 use_ml_classifier (3 / 20)
    update_interval := update_interval
    confidence_threshold := confidence_threshold
    frame_count := 0
    reference_set := false
    verified_regions := []
    processing_times := []
    last_hologram_map := none
    last_regions := [] }

/-- `HologramVerifier.process_frame`. The returned option is `some
(emitted frame, detections)` on normal return and `none` when the
reference-setup `ValueError` propagates to the caller (the state component
still records the mutations performed before the raise). Overlay drawing
(`cv2.putText`, `_annotate_frame`) is ornamental and modelled as the
identity on the emitted frame. -/
def HologramVerifier.processFrame (cv : CVOracle) (s : CoordState)
    (frame : Frame) : CoordState × Option (Frame × List Detection) :=
  let s := { s with frame_count := s.frame_count + 1 }
  let result_frame := frame
  if s.reference_set = false then
    let ar := s.frame_aligner.setReferenceFrame cv.detect frame
    let s := { s with frame_aligner := ar.1 }
    if ar.2 then ({ s with reference_set := true }, some (result_frame, []))
    else (s, none)
  else
    let al := cv.align s.frame_aligner frame
    if al.2 = false then (s, some (result_frame, []))
    else
      let aligned := al.1
      let s := { s with
        accumulator := s.accumulator.addFrame aligned
        behavior_verifier := s.behavior_verifier.addFrame aligned }
      let su :=
        if s.frame_count % s.update_interval = 0 then
          ({ s with last_hologram_map := some s.accumulator.generateHologramMapN },
           s.accumulator.getHologramRegions (1 / 2))
        else (s, [])
      let s := su.1
      let candidates := su.2 ++ (cv.selectRegions aligned).1
      let candidates := HologramVerifier.mergeOverlappingRegions candidates
      let detections :=
        if candidates.isEmpty then []
        else
          (s.behavior_verifier.verifyRegions cv.toHSV cv.mlVerify aligned
              candidates).filter
            (fun r => r.is_hologram && decide (s.confidence_threshold ≤ r.confidence))
      ({ s with last_regions := detections }, some (result_frame, detections))

/-- `HologramVerifier.reset`: clears the coordinator bookkeeping and resets
the accumulator and the behaviour verifier. (It does not touch
`frame_aligner`.) -/
def HologramVerifier.reset (s : CoordState) : CoordState :=
  { s with
    frame_count := 0
    reference_set := false
    verified_regions := []
    processing_times := []
    last_hologram_map := none
    last_regions := []
    accumulator := s.accumulator.reset
    behavior_verifier := s.behavior_verifier.reset }

/-! ## Concrete instances used by counterexamples and witnesses -/

/-- An external-CV instantiation whose detector finds no features and whose
aligner always fails. -/
def cvNoFeatures : CVOracle :=
  { detect := fun _ => ([], none)
    align := fun _ f => (f, false)
    selectRegions := fun _ => ([], [])
    toHSV := fun f => f
    mlVerify := fun _ _ => (false, 0) }

/-- An external-CV instantiation whose detector finds exactly 10 features
(with a descriptor table) and whose aligner always succeeds. -/
def cvTenFeatures : CVOracle :=
  { detect := fun _ => (List.range 10, some 1)
    align := fun _ f => (f, true)
    selectRegions := fun _ => ([], [])
    toHSV := fun f => f
    mlVerify := fun _ _ => (false, 0) }

/-- A coordinator at the post-construction baseline (default configuration:
`orb`, buffer 30, interval 10, no classifier, threshold 0.6). -/
def coord0 : CoordState := HologramVerifier.init "orb" 30 10 false (3 / 5)

/-- A mid-gray 1×1 test frame. -/
def frame0 : Frame := ⟨1, 1, [⟨128, 128, 128⟩]⟩

/-- A BGR pixel `(B,G,R) = (128,0,255)`: red-dominant with blue above
green, giving a negative chromaticity scalar. -/
def pxNeg : Pix := ⟨128, 0, 255⟩

/-- A 1×1 frame holding `pxNeg`. -/
def frNeg : Frame := ⟨1, 1, [pxNeg]⟩

/-- The accumulator after ingesting `frNeg` once (defaults 30, 0.2, 250). -/
def accNeg : AccState :=
  AccState.addFrame (ChromaticityAccumulator.init 30 (1 / 5) 250) frNeg

/-- A 1×1 frame whose pixel `(B,G,R) = (100,100,255)` has zero chromaticity
but saturation `155/255`. -/
def frRed : Frame := ⟨1, 1, [⟨100, 100, 255⟩]⟩

/-- An accumulator with `buffer_size = 6` (so `min_observations = 5`) after
ingesting `frRed` five times: its hologram map is `[155/255 · …] = [31/51]`. -/
def accRed : AccState :=
  (List.replicate 5 frRed).foldl AccState.addFrame
    (ChromaticityAccumulator.init 6 (1 / 5) 250)

/-- A behaviour verifier with the default `background_frames = 15`. -/
def ver15 : VerState := DynamicBehaviorVerifier.init 15 false (3 / 20)

/-- `ver15` after seven `add_frame` calls. -/
def ver7 : VerState := (List.replicate 7 frame0).foldl VerState.addFrame ver15

/-! ## C1 — failed reference setup -/

/-- C1 counterexample: with a detector yielding fewer than 10 features on
the first frame, `process_frame` does **not** emit the frame (the
`ValueError` propagates: the result component is `none`) and the
`frame_count` increment performed before the raise survives, so the
coordinator state is not "exactly as it was before the call". -/
theorem C1_counterexample :
    (HologramVerifier.processFrame cvNoFeatures coord0 frame0).2 = none ∧
    (HologramVerifier.processFrame cvNoFeatures coord0 frame0).1.frame_count ≠
      coord0.frame_count := by
  decide

/-- C1 (amended): if the first frame yields fewer than 10 features, the
`InsufficientFeatures` error propagates out of `process_frame` (no frame is
emitted), the coordinator remains UNINITIALIZED (`reference_set` stays
false) and the accumulator, verifier and reference image are untouched, but
the `frame_count` increment and the aligner's keypoint/descriptor writes
performed before the raise survive. -/
theorem C1_amended_failed_reference_setup (cv : CVOracle) (s : CoordState)
    (frame : Frame) (href : s.reference_set = false)
    (hfeat : (cv.detect frame).1.length < 10) :
    (HologramVerifier.processFrame cv s frame).2 = none ∧
    (HologramVerifier.processFrame cv s frame).1.reference_set = false ∧
    (HologramVerifier.processFrame cv s frame).1.frame_count = s.frame_count + 1 ∧
    (HologramVerifier.processFrame cv s frame).1.accumulator = s.accumulator ∧
    (HologramVerifier.processFrame cv s frame).1.behavior_verifier =
      s.behavior_verifier ∧
    (HologramVerifier.processFrame cv s frame).1.frame_aligner.reference_frame =
      s.frame_aligner.reference_frame ∧
    (HologramVerifier.processFrame cv s frame).1.frame_aligner.reference_keypoints =
      some (cv.detect frame).1 ∧
    (HologramVerifier.processFrame cv s frame).1.frame_aligner.reference_descriptors =
      (cv.detect frame).2 := by
  unfold HologramVerifier.processFrame AlignerState.setReferenceFrame
  simp [href, if_pos (Or.inr hfeat)]

/-- C1 witness. -/
theorem C1_witness :
    (HologramVerifier.processFrame cvNoFeatures coord0 frame0).2 = none ∧
    (HologramVerifier.processFrame cvNoFeatures coord0 frame0).1.reference_set = false ∧
    (HologramVerifier.processFrame cvNoFeatures coord0 frame0).1.frame_count =
      coord0.frame_count + 1 ∧
    (HologramVerifier.processFrame cvNoFeatures coord0 frame0).1.accumulator =
      coord0.accumulator ∧
    (HologramVerifier.processFrame cvNoFeatures coord0 frame0).1.behavior_verifier =
      coord0.behavior_verifier ∧
    (HologramVerifier.processFrame cvNoFeatures coord0 frame0).1.frame_aligner.reference_frame =
      coord0.frame_aligner.reference_frame ∧
    (HologramVerifier.processFrame cvNoFeatures coord0 frame0).1.frame_aligner.reference_keypoints =
      some (cvNoFeatures.detect frame0).1 ∧
    (HologramVerifier.processFrame cvNoFeatures coord0 frame0).1.frame_aligner.reference_descriptors =
      (cvNoFeatures.detect frame0).2 :=
  C1_amended_failed_reference_setup cvNoFeatures coord0 frame0 (by decide) (by decide)

/-! ## C9 — alignment failure leaves the temporal stages untouched -/

/-- C9: while RUNNING, a frame on which alignment fails is emitted with
zero detections, and the accumulator and verifier states are unchanged by
the call. -/
theorem C9_alignment_failure_pass_through (cv : CVOracle) (s : CoordState)
    (frame : Frame) (href : s.reference_set = true)
    (hal : (cv.align s.frame_aligner frame).2 = false) :
    (HologramVerifier.processFrame cv s frame).2 = some (frame, []) ∧
    (HologramVerifier.processFrame cv s frame).1.accumulator = s.accumulator ∧
    (HologramVerifier.processFrame cv s frame).1.behavior_verifier =
      s.behavior_verifier := by
  unfold HologramVerifier.processFrame
  simp [href, hal]

/-- C9 witness. -/
theorem C9_witness :
    (HologramVerifier.processFrame cvNoFeatures
        { coord0 with reference_set := true } frame0).2 = some (frame0, []) ∧
    (HologramVerifier.processFrame cvNoFeatures
        { coord0 with reference_set := true } frame0).1.accumulator =
      ({ coord0 with reference_set := true } : CoordState).accumulator ∧
    (HologramVerifier.processFrame cvNoFeatures
        { coord0 with reference_set := true } frame0).1.behavior_verifier =
      ({ coord0 with reference_set := true } : CoordState).behavior_verifier :=
  C9_alignment_failure_pass_through cvNoFeatures
    { coord0 with reference_set := true } frame0 (by decide) (by decide)

/-! ## C4 — reset versus the post-construction baseline -/

/-- The coordinator after a successful first frame (reference established). -/
def coordRef : CoordState :=
  (HologramVerifier.processFrame cvTenFeatures coord0 frame0).1

/-- C4 counterexample: after `reset()`, the aligner still holds the old
reference image, while the post-construction baseline has none — so not
every observable piece of state returns to the baseline. -/
theorem C4_counterexample :
    (HologramVerifier.reset coordRef).frame_aligner.reference_frame = some frame0 ∧
    coord0.frame_aligner.reference_frame = none := by
  decide

/-- C4 (amended): `reset()` restores the coordinator counters, cached
results, accumulator state (statistics and frame ring) and verifier state
(background ring and model) to the post-construction baseline and clears
the `reference_set` flag, but the aligner — its reference image, keypoints
and descriptors — is left untouched. -/
theorem C4_amended_reset_baseline (s : CoordState) (fd : String) (bs ui : ℕ)
    (mlc : Bool) (ct : ℚ)
    (h1 : s.accumulator.buffer_size = bs)
    (h2 : s.accumulator.saturation_threshold = 1 / 5)
    (h3 : s.accumulator.highlight_threshold = 250)
    (h4 : s.behavior_verifier.background_frames = 15)
    (h5 : s.behavior_verifier.use_classifier = mlc)
    (h6 : s.behavior_verifier.hue_energy_threshold = 3 / 20)
    (h7 : s.behavior_verifier.classifier_trained = false) :
    (HologramVerifier.reset s).accumulator =
      (HologramVerifier.init fd bs ui mlc ct).accumulator ∧
    (HologramVerifier.reset s).behavior_verifier =
      (HologramVerifier.init fd bs ui mlc ct).behavior_verifier ∧
    (HologramVerifier.reset s).frame_count = 0 ∧
    (HologramVerifier.reset s).reference_set = false ∧
    (HologramVerifier.reset s).verified_regions = [] ∧
    (HologramVerifier.reset s).processing_times = [] ∧
    (HologramVerifier.reset s).last_hologram_map = none ∧
    (HologramVerifier.reset s).last_regions = [] ∧
    (HologramVerifier.reset s).frame_aligner = s.frame_aligner := by
  unfold HologramVerifier.reset HologramVerifier.init AccState.reset
    VerState.reset ChromaticityAccumulator.init DynamicBehaviorVerifier.init
  refine ⟨?_, ?_, rfl, rfl, rfl, rfl, rfl, rfl, rfl⟩
  · simp_all
  · simp_all

/-- C4 witness. -/
theorem C4_witness :
    (HologramVerifier.reset coordRef).accumulator =
      (HologramVerifier.init "orb" 30 10 false (3 / 5)).accumulator ∧
    (HologramVerifier.reset coordRef).behavior_verifier =
      (HologramVerifier.init "orb" 30 10 false (3 / 5)).behavior_verifier ∧
    (HologramVerifier.reset coordRef).frame_count = 0 ∧
    (HologramVerifier.reset coordRef).reference_set = false ∧
    (HologramVerifier.reset coordRef).verified_regions = [] ∧
    (HologramVerifier.reset coordRef).processing_times = [] ∧
    (HologramVerifier.reset coordRef).last_hologram_map = none ∧
    (HologramVerifier.reset coordRef).last_regions = [] ∧
    (HologramVerifier.reset coordRef).frame_aligner = coordRef.frame_aligner :=
  C4_amended_reset_baseline coordRef "orb" 30 10 false (3 / 5) (by decide)
    (by decide) (by decide) (by decide) (by decide) (by decide) (by decide)

/-! ## C7 — background-model trigger point -/

/-- C7 counterexample: with the default `background_frames = 15`, after 7
`add_frame` calls the ring holds 7 < ⌈15/2⌉ = 8 frames and the background
model is already present (the trigger is the floor `15 // 2 = 7`, not the
ceiling). -/
theorem C7_counterexample :
    ver7.background_model.isSome = true ∧
    ver7.frame_buffer.length < (ver7.background_frames + 1) / 2 := by
  decide

/-! ## C3 — chromaticity scalar range -/

/-- C3 counterexample: the pixel `(B,G,R) = (128,0,255)` has saturation
`1 > ε` but a negative chromaticity scalar, hence `C ∉ [0,6)`; after one
frame the per-pixel mean `C_sum/N` is likewise negative. -/
theorem C3_counterexample :
    epsQ < satOf pxNeg ∧ chromaOf pxNeg < 0 ∧
    0 < accNeg.nAt 0 ∧ accNeg.csAt 0 / (accNeg.nAt 0 : ℚ) < 0 := by
  decide

/-! ## C6 — binarisation level of the regions operation -/

/-- C6 counterexample: for the reachable accumulator state `accRed` the
hologram map attains a positive maximum, yet at `threshold = 0.1` the
binarisation level used by `get_hologram_regions` is `31/510 < 0.1` — there
is no `0.1` floor when `max(score) > 0`. -/
theorem C6_counterexample :
    0 < maxQ accRed.generateHologramMap ∧
    regionsThresholdValue accRed.generateHologramMap (1 / 10) < 1 / 10 := by
  decide

/-! ## C5 — non-maximum suppression at the threshold -/

/-- C5 counterexample: the boxes `(0,0,3,1)` and `(1,0,3,1)` have IoU
exactly `1/2`; the suppression keeps both (removal requires IoU strictly
above `0.5`), so the survivors are not pairwise below `0.5` and a box with
IoU `= 0.5` against the picked box is not removed. -/
theorem C5_counterexample :
    iou4 (toXYXY (0, 0, 3, 1)) (toXYXY (1, 0, 3, 1)) = 1 / 2 ∧
    HologramVerifier.mergeOverlappingRegions [(0, 0, 3, 1), (1, 0, 3, 1)] =
      [(1, 0, 3, 1), (0, 0, 3, 1)] ∧
    ¬ List.Pairwise (fun a c => iou4 (toXYXY a) (toXYXY c) < 1 / 2)
      (HologramVerifier.mergeOverlappingRegions [(0, 0, 3, 1), (1, 0, 3, 1)]) := by
  decide

/-! ## C2 — heuristic confidence saturates at the decision threshold -/

/-- C2: in heuristic mode with a background model present, the verifier
returns `confidence = min(combined/hue_energy_threshold, 1)` and
`is_hologram = (combined > hue_energy_threshold)`; consequently every
region classified as a hologram has confidence exactly `1`, so the
coordinator's gate `confidence ≥ confidence_threshold` is vacuous for any
`confidence_threshold ≤ 1`. (`hue_energy_threshold > 0` keeps the division
meaningful; its default is `0.15`.) -/
theorem C2_heuristic_confidence_saturates (toHSV : Frame → Frame) (s : VerState)
    (current : Frame) (region : ℤ × ℤ × ℤ × ℤ) (t : ℚ)
    (hbg : s.background_model.isSome = true)
    (hθ : 0 < s.hue_energy_threshold) (ht : t ≤ 1) :
    (s.verifyRegionHeuristic toHSV current region).2 =
      min (combinedEnergy ((s.computeDifferenceImage toHSV current).2.regionPixels
          region.1 region.2.1 region.2.2.1 region.2.2.2) /
        s.hue_energy_threshold) 1 ∧
    ((s.verifyRegionHeuristic toHSV current region).1 = true ↔
      s.hue_energy_threshold <
        combinedEnergy ((s.computeDifferenceImage toHSV current).2.regionPixels
          region.1 region.2.1 region.2.2.1 region.2.2.2)) ∧
    ((s.verifyRegionHeuristic toHSV current region).1 = true →
      (s.verifyRegionHeuristic toHSV current region).2 = 1 ∧
      t ≤ (s.verifyRegionHeuristic toHSV current region).2) := by
  obtain ⟨bg, hbg'⟩ := Option.isSome_iff_exists.mp hbg
  have heq : s.verifyRegionHeuristic toHSV current region =
      (decide (s.hue_energy_threshold <
          combinedEnergy ((s.computeDifferenceImage toHSV current).2.regionPixels
            region.1 region.2.1 region.2.2.1 region.2.2.2)),
       min (combinedEnergy ((s.computeDifferenceImage toHSV current).2.regionPixels
            region.1 region.2.1 region.2.2.1 region.2.2.2) /
          s.hue_energy_threshold) 1) := by
    unfold VerState.verifyRegionHeuristic
    rw [hbg']
  rw [heq]
  refine ⟨rfl, decide_eq_true_iff, fun h => ?_⟩
  have hgt : s.hue_energy_threshold <
      combinedEnergy ((s.computeDifferenceImage toHSV current).2.regionPixels
        region.1 region.2.1 region.2.2.1 region.2.2.2) := of_decide_eq_true h
  have h1 : (1 : ℚ) ≤ combinedEnergy
      ((s.computeDifferenceImage toHSV current).2.regionPixels
        region.1 region.2.1 region.2.2.1 region.2.2.2) /
      s.hue_energy_threshold := (one_le_div hθ).mpr (le_of_lt hgt)
  constructor
  · exact min_eq_right h1
  · rw [min_eq_right h1]; exact ht

/-- C2 witness (zero difference image: the region is classified
non-hologram and the formulas hold with `combined = 0`). -/
theorem C2_witness :
    ((ver7.verifyRegionHeuristic (fun f => f) frame0 (0, 0, 1, 1)).2 =
      min (combinedEnergy ((ver7.computeDifferenceImage (fun f => f) frame0).2.regionPixels
          0 0 1 1) / ver7.hue_energy_threshold) 1 ∧
    ((ver7.verifyRegionHeuristic (fun f => f) frame0 (0, 0, 1, 1)).1 = true ↔
      ver7.hue_energy_threshold <
        combinedEnergy ((ver7.computeDifferenceImage (fun f => f) frame0).2.regionPixels
          0 0 1 1)) ∧
    ((ver7.verifyRegionHeuristic (fun f => f) frame0 (0, 0, 1, 1)).1 = true →
      (ver7.verifyRegionHeuristic (fun f => f) frame0 (0, 0, 1, 1)).2 = 1 ∧
      1 ≤ (ver7.verifyRegionHeuristic (fun f => f) frame0 (0, 0, 1, 1)).2)) :=
  C2_heuristic_confidence_saturates (fun f => f) ver7 frame0 (0, 0, 1, 1) 1
    (by decide) (by decide) le_rfl

/-! ## C5 — non-maximum suppression invariants -/

theorem getLastD_mem {α : Type _} (l : List α) (d : α) (h : l ≠ []) :
    l.getLastD d ∈ l := by
  induction l generalizing d with
  | nil => exact absurd rfl h
  | cons a t ih =>
    cases t with
    | nil => simp
    | cons b u =>
      rw [List.getLastD_cons]
      exact List.mem_cons_of_mem a (ih a (by simp))

theorem mem_insByY2 (boxes : List Box4) (i x : ℕ) (l : List ℕ) :
    x ∈ insByY2 boxes i l ↔ x = i ∨ x ∈ l := by
  induction l with
  | nil => simp [insByY2]
  | cons j t ih =>
    unfold insByY2
    split
    · simp [or_left_comm, or_comm]
    · simp only [List.mem_cons, ih]
      tauto

theorem mem_argsortY2 (boxes : List Box4) (x : ℕ) :
    x ∈ argsortY2 boxes → x < boxes.length := by
  unfold argsortY2
  have key : ∀ l : List ℕ, x ∈ l.foldr (insByY2 boxes) [] → x ∈ l := by
    intro l
    induction l with
    | nil => simp
    | cons a t ih =>
      intro hx
      rcases (mem_insByY2 boxes a x _).mp hx with rfl | hx'
      · exact List.mem_cons_self _ _
      · exact List.mem_cons_of_mem a (ih hx')
  intro hx
  exact List.mem_range.mp (key _ hx)

theorem nmsLoop_subset (boxes : List Box4) (fuel : ℕ) (inds : List ℕ) :
    ∀ i ∈ nmsLoop boxes fuel inds, i ∈ inds := by
  induction fuel generalizing inds with
  | zero => intro i hi; simp [nmsLoop] at hi
  | succ n ih =>
    intro i hi
    cases inds with
    | nil => simp [nmsLoop] at hi
    | cons a t =>
      rw [nmsLoop] at hi
      rcases List.mem_cons.mp hi with rfl | hi'
      · exact getLastD_mem _ 0 (by simp)
      · have := ih _ i hi'
        have h2 := List.mem_of_mem_filter this
        exact List.dropLast_subset _ h2

theorem nmsLoop_pairwise (boxes : List Box4) (fuel : ℕ) (inds : List ℕ) :
    List.Pairwise (fun i j =>
      nmsKeepTest (boxes.getD i default) (boxes.getD j default) = true)
      (nmsLoop boxes fuel inds) := by
  induction fuel generalizing inds with
  | zero => simp [nmsLoop]
  | succ n ih =>
    cases inds with
    | nil => simp [nmsLoop]
    | cons a t =>
      rw [nmsLoop]
      refine List.Pairwise.cons (fun j hj => ?_) (ih _)
      have hj' := nmsLoop_subset boxes n _ j hj
      have hp := List.of_mem_filter hj'
      exact hp

theorem iou4_comm (a b : Box4) : iou4 a b = iou4 b a := by
  have hi : interArea a b = interArea b a := by
    simp [interArea, min_comm, max_comm]
  have hu : unionArea a b = unionArea b a := by
    unfold unionArea
    rw [hi, add_comm]
  rw [iou4, iou4, hi, hu]

/-- Converting `(x1,y1,x2,y2)` back to `(x,y,w,h)` and again to corner
format is the identity. -/
theorem toXYXY_back (b : Box4) :
    toXYXY (b.x1, b.y1, b.x2 - b.x1, b.y2 - b.y1) = b := by
  simp [toXYXY]

/-- C5 (amended): the NMS output is a subset of its input, and every pair
of surviving boxes has IoU **≤ 0.5** (the loop removes a box only when its
IoU with the picked box is strictly greater than `0.5`, so ties at exactly
`0.5` survive). -/
theorem C5_amended_nms_invariants (regions : List (ℤ × ℤ × ℤ × ℤ))
    (b : ℤ × ℤ × ℤ × ℤ)
    (hb : b ∈ HologramVerifier.mergeOverlappingRegions regions) :
    b ∈ regions ∧
    List.Pairwise (fun a c => iou4 (toXYXY a) (toXYXY c) ≤ 1 / 2)
      (HologramVerifier.mergeOverlappingRegions regions) := by
  by_cases hreg : regions.isEmpty
  · rw [HologramVerifier.mergeOverlappingRegions, if_pos hreg] at hb
    cases hb
  constructor
  · rw [HologramVerifier.mergeOverlappingRegions, if_neg hreg] at hb
    obtain ⟨i, hik, hgi⟩ := List.mem_map.mp hb
    have hia : i ∈ argsortY2 (regions.map toXYXY) :=
      nmsLoop_subset _ _ _ i hik
    have hilt : i < regions.length := by
      have := mem_argsortY2 _ i hia
      simpa using this
    have hgetD : (regions.map toXYXY).getD i default =
        toXYXY (regions.getD i (0, 0, 0, 0)) := by
      rw [List.getD_eq_getElem?_getD, List.getD_eq_getElem?_getD,
        List.getElem?_map, List.getElem?_eq_getElem hilt]
      rfl
    rw [hgetD] at hgi
    have hmem : regions.getD i (0, 0, 0, 0) ∈ regions := by
      rw [List.getD_eq_getElem?_getD, List.getElem?_eq_getElem hilt]
      exact List.getElem_mem _
    set r := regions.getD i (0, 0, 0, 0) with hrdef
    obtain ⟨x, y, w, h⟩ := r
    obtain ⟨b1, b2, b3, b4⟩ := b
    have : (b1, b2, b3, b4) = ((x, y, w, h) : ℤ × ℤ × ℤ × ℤ) := by
      simp [toXYXY] at hgi
      simp only [Prod.mk.injEq]
      omega
    rwa [this]
  · rw [HologramVerifier.mergeOverlappingRegions, if_neg hreg]
    rw [List.pairwise_map]
    have hp := nmsLoop_pairwise (regions.map toXYXY)
      (regions.map toXYXY).length (argsortY2 (regions.map toXYXY))
    refine hp.imp ?_
    intro i j hij
    have h2 := (Bool.and_eq_true _ _).mp hij |>.2
    have hle : iou4 ((regions.map toXYXY).getD i default)
        ((regions.map toXYXY).getD j default) ≤ 1 / 2 := of_decide_eq_true h2
    rwa [toXYXY_back, toXYXY_back]

/-- C5 witness: at the tie input both boxes survive; each is in the input
and their pairwise IoU is `≤ 1/2`. -/
theorem C5_witness :
    (1, 0, 3, 1) ∈ ([(0, 0, 3, 1), (1, 0, 3, 1)] : List (ℤ × ℤ × ℤ × ℤ)) ∧
    List.Pairwise (fun a c => iou4 (toXYXY a) (toXYXY c) ≤ 1 / 2)
      (HologramVerifier.mergeOverlappingRegions [(0, 0, 3, 1), (1, 0, 3, 1)]) :=
  C5_amended_nms_invariants [(0, 0, 3, 1), (1, 0, 3, 1)] (1, 0, 3, 1) (by decide)

/-! ## C7 — background model lifecycle -/

/-- Invariant of a verifier state reachable by `n` `add_frame` calls from
construction: ring length, and presence/value of the background model. -/
def VerInv (bf n : ℕ) (s : VerState) : Prop :=
  s.background_frames = bf ∧
  s.frame_buffer.length = min n bf ∧
  (s.background_model.isSome = true ↔ (bf / 2 ≤ min n bf ∧ 3 ≤ min n bf)) ∧
  ((bf / 2 ≤ min n bf ∧ 3 ≤ min n bf) →
    s.background_model = some (medianFrames s.frame_buffer))

theorem verInv_init (bf : ℕ) (uc : Bool) (θ : ℚ) :
    VerInv bf 0 (DynamicBehaviorVerifier.init bf uc θ) := by
  refine ⟨rfl, by simp [DynamicBehaviorVerifier.init], ?_, ?_⟩
  · simp only [DynamicBehaviorVerifier.init, Option.isSome_none]
    constructor
    · intro h; cases h
    · intro h; omega
  · intro h; omega

theorem verInv_step (bf n : ℕ) (s : VerState) (f : Frame) (h : VerInv bf n s) :
    VerInv bf (n + 1) (s.addFrame f) := by
  obtain ⟨hbf, hlen, hiff, himp⟩ := h
  have hmono : min n bf ≤ min (n + 1) bf := by omega
  unfold VerState.addFrame
  dsimp only
  have hlen1 : (ringAppend s.background_frames s.frame_buffer f).length =
      min (n + 1) bf := by
    rw [hbf]
    exact ringAppend_length bf n s.frame_buffer f hlen
  split
  · rename_i hcond
    unfold VerState.updateBackgroundModel
    split
    · rename_i hlt3
      rw [hlen1] at hcond hlt3
      rw [hbf] at hcond
      refine ⟨hbf, hlen1, ?_, ?_⟩
      · rw [hiff]
        constructor
        · intro hh; omega
        · intro hh; omega
      · intro hh; omega
    · rename_i hge3
      rw [hlen1] at hcond hge3
      rw [hbf] at hcond
      refine ⟨hbf, hlen1, ?_, fun _ => rfl⟩
      simp only [Option.isSome_some, true_iff]
      omega
  · rename_i hcond
    rw [hlen1, hbf] at hcond
    refine ⟨hbf, hlen1, ?_, ?_⟩
    · rw [hiff]
      constructor
      · intro hh; omega
      · intro hh; omega
    · intro hh; omega

theorem verInv_fold (bf : ℕ) (uc : Bool) (θ : ℚ) (fs : List Frame) :
    VerInv bf fs.length
      (fs.foldl VerState.addFrame (DynamicBehaviorVerifier.init bf uc θ)) := by
  suffices h : ∀ (s : VerState) (n : ℕ), VerInv bf n s →
      VerInv bf (n + fs.length) (fs.foldl VerState.addFrame s) by
    simpa using h _ 0 (verInv_init bf uc θ)
  induction fs with
  | nil => intro s n hs; simpa using hs
  | cons f t ih =>
    intro s n hs
    rw [List.foldl_cons]
    have := ih (s.addFrame f) (n + 1) (verInv_step bf n s f hs)
    have harith : n + 1 + t.length = n + (t.length + 1) := by omega
    rw [harith] at this
    simpa using this

/-- C7 (amended): the background model is present exactly once the ring has
reached `max(background_frames // 2, 3)` frames (the source triggers at the
floor `background_frames // 2`, not the ceiling, and `_update_background_model`
additionally requires at least 3 buffered frames); whenever present it
equals the per-pixel, per-channel median over the current ring. -/
theorem C7_amended_background_trigger (bf : ℕ) (uc : Bool) (θ : ℚ)
    (fs : List Frame) :
    ((fs.foldl VerState.addFrame
        (DynamicBehaviorVerifier.init bf uc θ)).background_model.isSome = true ↔
      max (bf / 2) 3 ≤ min fs.length bf) ∧
    (max (bf / 2) 3 ≤ min fs.length bf →
      (fs.foldl VerState.addFrame
          (DynamicBehaviorVerifier.init bf uc θ)).background_model =
        some (medianFrames (fs.foldl VerState.addFrame
          (DynamicBehaviorVerifier.init bf uc θ)).frame_buffer)) := by
  obtain ⟨_, _, hiff, himp⟩ := verInv_fold bf uc θ fs
  constructor
  · rw [hiff]; omega
  · intro hh
    exact himp (by omega)

/-! ## Accumulator invariants: list and pixel groundwork -/

theorem getD_zipWith {α β γ : Type _} (f : α → β → γ) (a : List α) (b : List β)
    (i : ℕ) (da : α) (db : β) (dc : γ) (hia : i < a.length) (hib : i < b.length) :
    (List.zipWith f a b).getD i dc = f (a.getD i da) (b.getD i db) := by
  induction a generalizing b i with
  | nil => simp at hia
  | cons x xs ih =>
    cases b with
    | nil => simp at hib
    | cons y ys =>
      cases i with
      | zero => simp
      | succ j =>
        simp only [List.zipWith_cons_cons, List.getD_cons_succ]
        exact ih ys j (by simpa using hia) (by simpa using hib)

theorem getD_map' {α β : Type _} (f : α → β) (l : List α) (i : ℕ) (da : α)
    (db : β) (hi : i < l.length) :
    (l.map f).getD i db = f (l.getD i da) := by
  induction l generalizing i with
  | nil => simp at hi
  | cons x xs ih =>
    cases i with
    | zero => simp
    | succ j =>
      simp only [List.map_cons, List.getD_cons_succ]
      exact ih j (by simpa using hi)

theorem getD_mem_of_lt {α : Type _} (l : List α) (i : ℕ) (d : α)
    (hi : i < l.length) : l.getD i d ∈ l := by
  rw [List.getD_eq_getElem l d hi]
  exact List.getElem_mem _

theorem minRGB_le_chR (p : Pix) : minRGB p ≤ chR p :=
  le_trans (min_le_left _ _) (min_le_left _ _)

theorem minRGB_le_chG (p : Pix) : minRGB p ≤ chG p :=
  le_trans (min_le_left _ _) (min_le_right _ _)

theorem minRGB_le_chB (p : Pix) : minRGB p ≤ chB p := min_le_right _ _

theorem chR_le_maxRGB (p : Pix) : chR p ≤ maxRGB p :=
  le_trans (le_max_left _ _) (le_max_left _ _)

theorem chG_le_maxRGB (p : Pix) : chG p ≤ maxRGB p :=
  le_trans (le_max_right _ _) (le_max_left _ _)

theorem chB_le_maxRGB (p : Pix) : chB p ≤ maxRGB p := le_max_right _ _

theorem minRGB_nonneg (p : Pix) : 0 ≤ minRGB p := by
  unfold minRGB chR chG chB
  refine le_min (le_min ?_ ?_) ?_ <;> positivity

theorem minRGB_le_maxRGB (p : Pix) : minRGB p ≤ maxRGB p :=
  le_trans (minRGB_le_chR p) (chR_le_maxRGB p)

theorem maxRGB_le_one (p : Pix) (hwf : p.WF) : maxRGB p ≤ 1 := by
  obtain ⟨h0, h1, h2⟩ := hwf
  unfold maxRGB chR chG chB
  have e0 : (p.c0 : ℚ) ≤ 255 := by exact_mod_cast h0
  have e1 : (p.c1 : ℚ) ≤ 255 := by exact_mod_cast h1
  have e2 : (p.c2 : ℚ) ≤ 255 := by exact_mod_cast h2
  refine max_le (max_le ?_ ?_) ?_ <;> rw [div_le_one (by norm_num)] <;> assumption

/-- `0 ≤ S ≤ 1` for the saturation of any pixel. -/
theorem satOf_mem_unit (p : Pix) : 0 ≤ satOf p ∧ satOf p ≤ 1 := by
  unfold satOf
  split
  · rename_i hM
    have hMpos : 0 < maxRGB p := lt_trans (by norm_num [epsQ]) hM
    constructor
    · exact div_nonneg (sub_nonneg.mpr (minRGB_le_maxRGB p)) (le_of_lt hMpos)
    · rw [div_le_one hMpos]
      have := minRGB_nonneg p
      linarith
  · norm_num

/-- Numerator bound: `|num| < S + ε` scaled — the key ratio estimate. -/
theorem ratio_abs_lt_one (S M m num : ℚ) (hnum : |num| ≤ M - m)
    (hS : S = (M - m) / M) (hM : 0 < M) (hM1 : M ≤ 1) (hSe : epsQ < S) :
    |num / (S + epsQ)| < 1 := by
  have heps : (0 : ℚ) < epsQ := by norm_num [epsQ]
  have hS0 : 0 < S := lt_trans heps hSe
  have hSpos : 0 < S + epsQ := by linarith
  rw [abs_div, abs_of_pos hSpos, div_lt_one hSpos]
  have h1 : M - m = S * M := by
    rw [hS]; field_simp
  have h2 : S * M ≤ S * 1 := mul_le_mul_of_nonneg_left hM1 (le_of_lt hS0)
  calc |num| ≤ M - m := hnum
    _ = S * M := h1
    _ ≤ S := by rw [mul_one] at h2; exact h2
    _ < S + epsQ := by linarith

/-- The chromaticity scalar of any 8-bit pixel lies in `(-1, 5)`. -/
theorem chromaOf_bounds (p : Pix) (hwf : p.WF) :
    -1 < chromaOf p ∧ chromaOf p < 5 := by
  unfold chromaOf
  split
  · rename_i hS
    have hM : epsQ < maxRGB p := by
      by_contra hM
      rw [satOf, if_neg (by simpa using hM)] at hS
      exact absurd hS (by norm_num [epsQ])
    have hMpos : 0 < maxRGB p := lt_trans (by norm_num [epsQ]) hM
    have hsat_eq : satOf p = (maxRGB p - minRGB p) / maxRGB p := by
      rw [satOf, if_pos hM]
    have hM1 := maxRGB_le_one p hwf
    have habs : ∀ num : ℚ, |num| ≤ maxRGB p - minRGB p →
        -1 < num / (satOf p + epsQ) ∧ num / (satOf p + epsQ) < 1 := by
      intro num hnum
      have := ratio_abs_lt_one (satOf p) (maxRGB p) (minRGB p) num hnum
        hsat_eq hMpos hM1 hS
      exact abs_lt.mp this
    split
    · have h := habs (chR p - chG p) (by
        rw [abs_sub_le_iff]
        constructor
        · have := chR_le_maxRGB p; have := minRGB_le_chG p; linarith
        · have := chG_le_maxRGB p; have := minRGB_le_chR p; linarith)
      constructor <;> linarith [h.1, h.2]
    · split
      · have h := habs (chB p - chR p) (by
          rw [abs_sub_le_iff]
          constructor
          · have := chB_le_maxRGB p; have := minRGB_le_chR p; linarith
          · have := chR_le_maxRGB p; have := minRGB_le_chB p; linarith)
        constructor <;> linarith [h.1, h.2]
      · have h := habs (chG p - chB p) (by
          rw [abs_sub_le_iff]
          constructor
          · have := chG_le_maxRGB p; have := minRGB_le_chB p; linarith
          · have := chB_le_maxRGB p; have := minRGB_le_chG p; linarith)
        constructor <;> linarith [h.1, h.2]
  · norm_num

/-! ## Accumulator invariants: reachable-state machinery -/

/-- Well-formedness of a frame relative to the accumulator's pixel count
`w` (all frames of a clip share the reference's dimensions). -/
def FrameGood (w : ℕ) (f : Frame) : Prop :=
  f.px.length = w ∧ ∀ p ∈ f.px, p.WF

instance (w : ℕ) (f : Frame) : Decidable (FrameGood w f) := by
  unfold FrameGood; infer_instance

/-- Invariant of accumulator states reachable from construction. -/
def AccGood (w : ℕ) (s : AccState) : Prop :=
  (s.initialized = false →
    s.s_max = none ∧ s.c_sum = none ∧ s.n_count = none ∧ s.frame_count = 0) ∧
  (s.initialized = true →
    s.smList.length = w ∧ s.csList.length = w ∧ s.nList.length = w ∧
    0 < s.frame_count) ∧
  (∀ i, s.nAt i ≤ s.frame_count) ∧
  (∀ i, 0 ≤ s.smAt i ∧ s.smAt i ≤ 1) ∧
  (∀ i, (s.nAt i = 0 ∧ s.csAt i = 0) ∨
    (-(s.nAt i : ℚ) < s.csAt i ∧ s.csAt i < 5 * (s.nAt i : ℚ)))

theorem accGood_init (bs : ℕ) (st ht : ℚ) (w : ℕ) :
    AccGood w (ChromaticityAccumulator.init bs st ht) := by
  refine ⟨fun _ => ⟨rfl, rfl, rfl, rfl⟩, ?_, ?_, ?_, ?_⟩
  · intro h
    exact absurd h Bool.false_ne_true
  all_goals
    intro i <;>
    simp [AccState.nAt, AccState.smAt, AccState.csAt, AccState.nList,
      AccState.smList, AccState.csList, ChromaticityAccumulator.init]

/-- Pointwise preservation of the statistics invariants by one `add_frame`
update round. -/
theorem accPointwise (w fc : ℕ) (sm cs : List ℚ) (nl : List ℕ) (f : Frame)
    (st ht : ℚ) (i : ℕ)
    (hlen_sm : sm.length = w) (hlen_cs : cs.length = w) (hlen_n : nl.length = w)
    (hf : FrameGood w f)
    (hn : nl.getD i 0 ≤ fc)
    (hsm : 0 ≤ sm.getD i 0 ∧ sm.getD i 0 ≤ 1)
    (hcs : (nl.getD i 0 = 0 ∧ cs.getD i 0 = 0) ∨
      (-(nl.getD i 0 : ℚ) < cs.getD i 0 ∧ cs.getD i 0 < 5 * (nl.getD i 0 : ℚ))) :
    ((List.zipWith (fun (v : Bool) old => if v then old + 1 else old)
        (f.px.map (validPix st ht)) nl).getD i 0 ≤ fc + 1) ∧
    (0 ≤ (List.zipWith max sm (f.px.map satOf)).getD i 0 ∧
      (List.zipWith max sm (f.px.map satOf)).getD i 0 ≤ 1) ∧
    (sm.getD i 0 ≤ (List.zipWith max sm (f.px.map satOf)).getD i 0) ∧
    (((List.zipWith (fun (v : Bool) old => if v then old + 1 else old)
          (f.px.map (validPix st ht)) nl).getD i 0 = 0 ∧
      (List.zipWith (fun (vc : Bool × ℚ) old => if vc.1 then old + vc.2 else old)
          ((f.px.map (validPix st ht)).zip (f.px.map chromaOf)) cs).getD i 0 = 0) ∨
      (-(((List.zipWith (fun (v : Bool) old => if v then old + 1 else old)
            (f.px.map (validPix st ht)) nl).getD i 0 : ℕ) : ℚ) <
        (List.zipWith (fun (vc : Bool × ℚ) old => if vc.1 then old + vc.2 else old)
          ((f.px.map (validPix st ht)).zip (f.px.map chromaOf)) cs).getD i 0 ∧
       (List.zipWith (fun (vc : Bool × ℚ) old => if vc.1 then old + vc.2 else old)
          ((f.px.map (validPix st ht)).zip (f.px.map chromaOf)) cs).getD i 0 <
        5 * (((List.zipWith (fun (v : Bool) old => if v then old + 1 else old)
            (f.px.map (validPix st ht)) nl).getD i 0 : ℕ) : ℚ))) := by
  obtain ⟨hflen, hfwf⟩ := hf
  by_cases hi : i < w
  · have hpx : i < f.px.length := by omega
    have hpWF : (f.px.getD i default).WF := hfwf _ (getD_mem_of_lt _ _ _ hpx)
    have hmaplen : ∀ {β : Type} (g : Pix → β), (f.px.map g).length = f.px.length :=
      fun g => List.length_map _ _
    have hS : (f.px.map satOf).getD i 0 = satOf (f.px.getD i default) :=
      getD_map' satOf f.px i default 0 hpx
    have hC : (f.px.map chromaOf).getD i 0 = chromaOf (f.px.getD i default) :=
      getD_map' chromaOf f.px i default 0 hpx
    have hV : (f.px.map (validPix st ht)).getD i false =
        validPix st ht (f.px.getD i default) :=
      getD_map' (validPix st ht) f.px i default false hpx
    have hn' : (List.zipWith (fun (v : Bool) old => if v then old + 1 else old)
        (f.px.map (validPix st ht)) nl).getD i 0 =
        (if (f.px.map (validPix st ht)).getD i false then nl.getD i 0 + 1
         else nl.getD i 0) :=
      getD_zipWith _ _ _ i false 0 0 (by rw [hmaplen]; exact hpx) (by omega)
    have hsm' : (List.zipWith max sm (f.px.map satOf)).getD i 0 =
        max (sm.getD i 0) ((f.px.map satOf).getD i 0) :=
      getD_zipWith _ _ _ i 0 0 0 (by omega) (by rw [hmaplen]; exact hpx)
    have hzip : ((f.px.map (validPix st ht)).zip (f.px.map chromaOf)).getD i
        (false, 0) = ((f.px.map (validPix st ht)).getD i false,
          (f.px.map chromaOf).getD i 0) :=
      getD_zipWith Prod.mk _ _ i false 0 (false, 0) (by rw [hmaplen]; exact hpx)
        (by rw [hmaplen]; exact hpx)
    have hc' : (List.zipWith (fun (vc : Bool × ℚ) old =>
        if vc.1 then old + vc.2 else old)
        ((f.px.map (validPix st ht)).zip (f.px.map chromaOf)) cs).getD i 0 =
        (if (f.px.map (validPix st ht)).getD i false then
          cs.getD i 0 + (f.px.map chromaOf).getD i 0 else cs.getD i 0) := by
      have := getD_zipWith (fun (vc : Bool × ℚ) old =>
          if vc.1 then old + vc.2 else old)
          ((f.px.map (validPix st ht)).zip (f.px.map chromaOf)) cs i (false, 0) 0 0
          (by rw [List.length_zip, hmaplen, hmaplen]; omega) (by omega)
      rw [this, hzip]
    have hchb := chromaOf_bounds _ hpWF
    have hsb := satOf_mem_unit (f.px.getD i default)
    refine ⟨?_, ?_, ?_, ?_⟩
    · rw [hn']
      split <;> omega
    · rw [hsm', hS]
      constructor
      · exact le_max_of_le_left hsm.1
      · exact max_le hsm.2 hsb.2
    · rw [hsm']
      exact le_max_left _ _
    · rw [hn', hc', hC]
      split
      · rcases hcs with ⟨hn0, hc0⟩ | ⟨hlo, hhi⟩
        · right
          rw [hn0, hc0]
          push_cast
          constructor <;> linarith [hchb.1, hchb.2]
        · right
          push_cast
          constructor <;> linarith [hchb.1, hchb.2]
      · exact hcs
  · have hout : ∀ (l : List ℕ), l.length = w → l.getD i 0 = 0 := fun l hl =>
      List.getD_eq_default _ _ (by omega)
    have houtq : ∀ (l : List ℚ), l.length = w → l.getD i 0 = 0 := fun l hl =>
      List.getD_eq_default _ _ (by omega)
    have hlz1 : (List.zipWith (fun (v : Bool) old => if v then old + 1 else old)
        (f.px.map (validPix st ht)) nl).length = w := by
      rw [List.length_zipWith, List.length_map]; omega
    have hlz2 : (List.zipWith max sm (f.px.map satOf)).length = w := by
      rw [List.length_zipWith, List.length_map]; omega
    have hlz3 : (List.zipWith (fun (vc : Bool × ℚ) old =>
        if vc.1 then old + vc.2 else old)
        ((f.px.map (validPix st ht)).zip (f.px.map chromaOf)) cs).length = w := by
      rw [List.length_zipWith, List.length_zip, List.length_map, List.length_map]
      omega
    rw [hout _ hlz1, houtq _ hlz2, houtq _ hlz3, houtq sm hlen_sm]
    refine ⟨by omega, by norm_num, le_refl _, Or.inl ⟨rfl, rfl⟩⟩

theorem addFrame_eq_of_init (s : AccState) (f : Frame) (h : s.initialized = true) :
    s.addFrame f = { s with
      frame_buffer := ringAppend s.buffer_size s.frame_buffer f
      frame_count := s.frame_count + 1
      s_max := some (List.zipWith max s.smList (f.px.map satOf))
      c_sum := some (List.zipWith (fun (vc : Bool × ℚ) old =>
        if vc.1 then old + vc.2 else old)
        ((f.px.map (validPix s.saturation_threshold s.highlight_threshold)).zip
          (f.px.map chromaOf)) s.csList)
      n_count := some (List.zipWith (fun (v : Bool) old =>
        if v then old + 1 else old)
        (f.px.map (validPix s.saturation_threshold s.highlight_threshold))
        s.nList) } := by
  unfold AccState.addFrame
  rw [if_pos h]

theorem addFrame_eq_of_uninit (s : AccState) (f : Frame)
    (h : s.initialized = false) :
    s.addFrame f = { s with
      frame_buffer := ringAppend s.buffer_size s.frame_buffer f
      frame_count := s.frame_count + 1
      shape := (f.hgt, f.wid)
      initialized := true
      s_max := some (List.zipWith max (List.replicate f.px.length 0)
        (f.px.map satOf))
      c_sum := some (List.zipWith (fun (vc : Bool × ℚ) old =>
        if vc.1 then old + vc.2 else old)
        ((f.px.map (validPix s.saturation_threshold s.highlight_threshold)).zip
          (f.px.map chromaOf)) (List.replicate f.px.length 0))
      n_count := some (List.zipWith (fun (v : Bool) old =>
        if v then old + 1 else old)
        (f.px.map (validPix s.saturation_threshold s.highlight_threshold))
        (List.replicate f.px.length 0)) } := by
  unfold AccState.addFrame
  rw [if_neg (by simp [h])]
  rfl

theorem getD_replicate_zero_q (n i : ℕ) :
    (List.replicate n (0 : ℚ)).getD i 0 = 0 := by
  by_cases hi : i < n
  · rw [List.getD_eq_getElem _ _ (by simpa using hi), List.getElem_replicate]
  · exact List.getD_eq_default _ _ (by simpa using not_lt.mp hi)

theorem getD_replicate_zero_n (n i : ℕ) :
    (List.replicate n (0 : ℕ)).getD i 0 = 0 := by
  by_cases hi : i < n
  · rw [List.getD_eq_getElem _ _ (by simpa using hi), List.getElem_replicate]
  · exact List.getD_eq_default _ _ (by simpa using not_lt.mp hi)

theorem accGood_step (w : ℕ) (s : AccState) (f : Frame)
    (hs : AccGood w s) (hf : FrameGood w f) :
    AccGood w (s.addFrame f) ∧
    (s.addFrame f).frame_count = s.frame_count + 1 ∧
    (∀ i, s.smAt i ≤ (s.addFrame f).smAt i) := by
  obtain ⟨hun, hin, hnb, hsmb, hcsb⟩ := hs
  by_cases hinit : s.initialized = true
  · obtain ⟨hlsm, hlcs, hln, hfc⟩ := hin hinit
    rw [addFrame_eq_of_init s f hinit]
    have hpoint := fun i => accPointwise w s.frame_count s.smList s.csList
      s.nList f s.saturation_threshold s.highlight_threshold i hlsm hlcs hln hf
      (hnb i) (hsmb i) (hcsb i)
    refine ⟨⟨?_, ?_, ?_, ?_, ?_⟩, rfl, ?_⟩
    · intro h
      exact absurd ((hinit.symm.trans h).symm) Bool.false_ne_true
    · intro _
      obtain ⟨hflen, _⟩ := hf
      have hlsm2 : (s.s_max.getD []).length = w := hlsm
      have hlcs2 : (s.c_sum.getD []).length = w := hlcs
      have hln2 : (s.n_count.getD []).length = w := hln
      refine ⟨?_, ?_, ?_, ?_⟩
      · simp [AccState.smList, List.length_zipWith, List.length_map, hlsm2, hflen]
      · simp [AccState.csList, List.length_zipWith, List.length_zip,
          List.length_map, hlcs2, hflen]
      · simp [AccState.nList, List.length_zipWith, List.length_map, hln2, hflen]
      · show 0 < s.frame_count + 1
        omega
    · intro i
      exact (hpoint i).1
    · intro i
      exact (hpoint i).2.1
    · intro i
      exact (hpoint i).2.2.2
    · intro i
      exact (hpoint i).2.2.1
  · have hfalse : s.initialized = false := by
      cases hb : s.initialized
      · rfl
      · exact absurd hb hinit
    obtain ⟨hsm0, hcs0, hn0, hfc0⟩ := hun hfalse
    rw [addFrame_eq_of_uninit s f hfalse]
    have hflen := hf.1
    have hrepl_sm : (List.replicate f.px.length (0 : ℚ)).length = w := by
      simp [hflen]
    have hpoint := fun i => accPointwise w s.frame_count
      (List.replicate f.px.length 0) (List.replicate f.px.length 0)
      (List.replicate f.px.length 0) f s.saturation_threshold
      s.highlight_threshold i hrepl_sm hrepl_sm (by simp [hflen]) hf
      (by rw [getD_replicate_zero_n]; omega)
      (by rw [getD_replicate_zero_q]; norm_num)
      (by rw [getD_replicate_zero_n, getD_replicate_zero_q]; left; exact ⟨rfl, rfl⟩)
    refine ⟨⟨?_, ?_, ?_, ?_, ?_⟩, rfl, ?_⟩
    · intro h
      exact absurd h.symm Bool.false_ne_true
    · intro _
      refine ⟨?_, ?_, ?_, ?_⟩
      · simp [AccState.smList, List.length_zipWith, List.length_map, hflen]
      · simp [AccState.csList, List.length_zipWith, List.length_zip,
          List.length_map, hflen]
      · simp [AccState.nList, List.length_zipWith, List.length_map, hflen]
      · show 0 < s.frame_count + 1
        omega
    · intro i
      have := (hpoint i).1
      simpa [AccState.nAt, AccState.nList] using this
    · intro i
      exact (hpoint i).2.1
    · intro i
      exact (hpoint i).2.2.2
    · intro i
      have hold : s.smAt i = 0 := by
        simp [AccState.smAt, AccState.smList, hsm0]
      rw [hold]
      exact le_trans (by rw [getD_replicate_zero_q]) (hpoint i).2.2.1

theorem accGood_fold (bs : ℕ) (st ht : ℚ) (w : ℕ) (fs : List Frame)
    (hfs : ∀ g ∈ fs, FrameGood w g) :
    AccGood w (fs.foldl AccState.addFrame (ChromaticityAccumulator.init bs st ht)) ∧
    (fs.foldl AccState.addFrame
      (ChromaticityAccumulator.init bs st ht)).frame_count = fs.length := by
  suffices h : ∀ s : AccState, AccGood w s →
      AccGood w (fs.foldl AccState.addFrame s) ∧
      (fs.foldl AccState.addFrame s).frame_count = s.frame_count + fs.length by
    have := h _ (accGood_init bs st ht w)
    simpa [ChromaticityAccumulator.init] using this
  induction fs with
  | nil =>
    intro s hs
    simpa using hs
  | cons g t ih =>
    intro s hs
    have hg : FrameGood w g := hfs g (List.mem_cons_self _ _)
    have hstep := accGood_step w s g hs hg
    have ht' := ih (fun x hx => hfs x (List.mem_cons_of_mem g hx)) _ hstep.1
    rw [List.foldl_cons]
    refine ⟨ht'.1, ?_⟩
    rw [ht'.2, hstep.2.1]
    simp only [List.length_cons]
    omega

/-! ## C8 — statistics invariants -/

/-- C8: after ingesting `k` frames from construction, every pixel count
satisfies `N[i] ≤ k`, the maximum saturation satisfies `0 ≤ S_max[i] ≤ 1`,
and `S_max[i]` does not decrease across the next `add_frame` call. -/
theorem C8_statistics_invariants (bs : ℕ) (st ht : ℚ) (w : ℕ) (fs : List Frame)
    (f : Frame) (i : ℕ) (hfs : ∀ g ∈ fs, FrameGood w g) (hf : FrameGood w f) :
    (fs.foldl AccState.addFrame (ChromaticityAccumulator.init bs st ht)).nAt i ≤
      fs.length ∧
    (0 ≤ (fs.foldl AccState.addFrame
        (ChromaticityAccumulator.init bs st ht)).smAt i ∧
      (fs.foldl AccState.addFrame
        (ChromaticityAccumulator.init bs st ht)).smAt i ≤ 1) ∧
    (fs.foldl AccState.addFrame (ChromaticityAccumulator.init bs st ht)).smAt i ≤
      ((fs.foldl AccState.addFrame
        (ChromaticityAccumulator.init bs st ht)).addFrame f).smAt i := by
  obtain ⟨hgood, hfc⟩ := accGood_fold bs st ht w fs hfs
  refine ⟨?_, hgood.2.2.2.1 i, ?_⟩
  · exact hfc ▸ hgood.2.2.1 i
  · exact (accGood_step w _ f hgood hf).2.2 i

/-- C8 witness. -/
theorem C8_witness :
    ([frNeg].foldl AccState.addFrame
        (ChromaticityAccumulator.init 30 (1 / 5) 250)).nAt 0 ≤ [frNeg].length ∧
    (0 ≤ ([frNeg].foldl AccState.addFrame
        (ChromaticityAccumulator.init 30 (1 / 5) 250)).smAt 0 ∧
      ([frNeg].foldl AccState.addFrame
        (ChromaticityAccumulator.init 30 (1 / 5) 250)).smAt 0 ≤ 1) ∧
    ([frNeg].foldl AccState.addFrame
        (ChromaticityAccumulator.init 30 (1 / 5) 250)).smAt 0 ≤
      (([frNeg].foldl AccState.addFrame
        (ChromaticityAccumulator.init 30 (1 / 5) 250)).addFrame frNeg).smAt 0 :=
  C8_statistics_invariants 30 (1 / 5) 250 1 [frNeg] frNeg 0
    (by decide) (by decide)

/-! ## C3 (amended) — chromaticity scalar range -/

/-- C3 (amended): for every 8-bit BGR pixel with saturation above `ε` the
chromaticity scalar lies in the open interval `(-1, 5)` (not `[0, 6)`: the
source never folds the scalar modulo 6, so red-dominant pixels with
`B > G` go negative), and for every pixel of a reachable accumulator state
with `N[i] > 0` the mean `C_sum[i]/N[i]` lies in `(-1, 5)` as well. -/
theorem C3_amended_chromaticity_range (p : Pix) (hp : p.WF)
    (hs : epsQ < satOf p) (bs : ℕ) (st ht : ℚ) (w : ℕ) (fs : List Frame)
    (i : ℕ) (hfs : ∀ g ∈ fs, FrameGood w g)
    (hn : 0 < (fs.foldl AccState.addFrame
      (ChromaticityAccumulator.init bs st ht)).nAt i) :
    (-1 < chromaOf p ∧ chromaOf p < 5) ∧
    (-1 < (fs.foldl AccState.addFrame
          (ChromaticityAccumulator.init bs st ht)).csAt i /
        ((fs.foldl AccState.addFrame
          (ChromaticityAccumulator.init bs st ht)).nAt i : ℚ) ∧
      (fs.foldl AccState.addFrame
          (ChromaticityAccumulator.init bs st ht)).csAt i /
        ((fs.foldl AccState.addFrame
          (ChromaticityAccumulator.init bs st ht)).nAt i : ℚ) < 5) := by
  refine ⟨chromaOf_bounds p hp, ?_⟩
  obtain ⟨hgood, _⟩ := accGood_fold bs st ht w fs hfs
  rcases hgood.2.2.2.2 i with ⟨h0, _⟩ | ⟨hlo, hhi⟩
  · rw [h0] at hn
    exact absurd hn (lt_irrefl 0)
  · have hnpos : (0 : ℚ) < ((fs.foldl AccState.addFrame
        (ChromaticityAccumulator.init bs st ht)).nAt i : ℚ) := by
      exact_mod_cast hn
    constructor
    · rw [lt_div_iff hnpos]
      linarith
    · rw [div_lt_iff hnpos]
      linarith

/-- C3 witness (pure red pixel and a one-frame accumulator run on `frNeg`,
whose mean is `≈ -0.502 ∈ (-1, 5)`). -/
theorem C3_witness :
    (-1 < chromaOf ⟨0, 0, 255⟩ ∧ chromaOf ⟨0, 0, 255⟩ < 5) ∧
    (-1 < ([frNeg].foldl AccState.addFrame
          (ChromaticityAccumulator.init 30 (1 / 5) 250)).csAt 0 /
        (([frNeg].foldl AccState.addFrame
          (ChromaticityAccumulator.init 30 (1 / 5) 250)).nAt 0 : ℚ) ∧
      ([frNeg].foldl AccState.addFrame
          (ChromaticityAccumulator.init 30 (1 / 5) 250)).csAt 0 /
        (([frNeg].foldl AccState.addFrame
          (ChromaticityAccumulator.init 30 (1 / 5) 250)).nAt 0 : ℚ) < 5) :=
  C3_amended_chromaticity_range ⟨0, 0, 255⟩ (by decide) (by decide)
    30 (1 / 5) 250 1 [frNeg] 0 (by decide) (by decide)

/-! ## C10 — hologram-map non-negativity and the all-zero case -/

/-- Pointwise analysis of the hologram-map expression: entries are
non-negative whenever `S_max` is, and vanish when every count is zero. -/
theorem holomap_pointwise (smL : List ℚ) (nL : List ℕ) (M : List ℚ)
    (mo : ℕ) (i : ℕ) (hmo : 0 < mo) (hsm : 0 ≤ smL.getD i 0) :
    (0 ≤ (List.zipWith (fun h (n : ℕ) => if n < mo then 0 else h)
      (List.zipWith (fun sm m => sm * (1 - m)) smL
        (M.map (· / (if maxQ M > epsQ then maxQ M else 1)))) nL).getD i 0) ∧
    ((∀ n ∈ nL, n = 0) →
      (List.zipWith (fun h (n : ℕ) => if n < mo then 0 else h)
        (List.zipWith (fun sm m => sm * (1 - m)) smL
          (M.map (· / (if maxQ M > epsQ then maxQ M else 1)))) nL).getD i 0 = 0) := by
  by_cases hi : i < (List.zipWith (fun h (n : ℕ) => if n < mo then 0 else h)
      (List.zipWith (fun sm m => sm * (1 - m)) smL
        (M.map (· / (if maxQ M > epsQ then maxQ M else 1)))) nL).length
  · have hlen := hi
    rw [List.length_zipWith, List.length_zipWith, List.length_map] at hlen
    have hiSm : i < smL.length := by omega
    have hiM : i < M.length := by omega
    have hiN : i < nL.length := by omega
    have houter : (List.zipWith (fun h (n : ℕ) => if n < mo then 0 else h)
        (List.zipWith (fun sm m => sm * (1 - m)) smL
          (M.map (· / (if maxQ M > epsQ then maxQ M else 1)))) nL).getD i 0 =
        (if nL.getD i 0 < mo then 0 else
          (List.zipWith (fun sm m => sm * (1 - m)) smL
            (M.map (· / (if maxQ M > epsQ then maxQ M else 1)))).getD i 0) :=
      getD_zipWith _ _ _ i 0 0 0
        (by rw [List.length_zipWith, List.length_map]; omega) hiN
    have hinner : (List.zipWith (fun sm m => sm * (1 - m)) smL
        (M.map (· / (if maxQ M > epsQ then maxQ M else 1)))).getD i 0 =
        smL.getD i 0 * (1 - (M.map
          (· / (if maxQ M > epsQ then maxQ M else 1))).getD i 0) :=
      getD_zipWith _ _ _ i 0 0 0 hiSm (by rw [List.length_map]; omega)
    have hMn : (M.map (· / (if maxQ M > epsQ then maxQ M else 1))).getD i 0 =
        M.getD i 0 / (if maxQ M > epsQ then maxQ M else 1) :=
      getD_map' _ M i 0 0 hiM
    have hMmem : M.getD i 0 ≤ maxQ M := le_maxQ (getD_mem_of_lt M i 0 hiM)
    have hMmaxpos : 0 < (if maxQ M > epsQ then maxQ M else 1) := by
      split
      · rename_i hgt
        exact lt_trans (by norm_num [epsQ]) hgt
      · norm_num
    have hMle : M.getD i 0 ≤ (if maxQ M > epsQ then maxQ M else 1) := by
      split
      · exact hMmem
      · rename_i hng
        push_neg at hng
        calc M.getD i 0 ≤ maxQ M := hMmem
          _ ≤ epsQ := hng
          _ ≤ 1 := by norm_num [epsQ]
    have hnonneg : 0 ≤ smL.getD i 0 * (1 - (M.map
        (· / (if maxQ M > epsQ then maxQ M else 1))).getD i 0) := by
      rw [hMn]
      refine mul_nonneg hsm ?_
      rw [sub_nonneg, div_le_one hMmaxpos]
      exact hMle
    constructor
    · rw [houter]
      split
      · exact le_refl 0
      · rw [hinner]
        exact hnonneg
    · intro hall
      rw [houter]
      have hn0 : nL.getD i 0 = 0 := hall _ (getD_mem_of_lt nL i 0 hiN)
      rw [if_pos (by omega)]
  · rw [List.getD_eq_default _ _ (by omega)]
    exact ⟨le_refl 0, fun _ => rfl⟩

/-- C10: the hologram map of every reachable accumulator state is entrywise
non-negative, and it is identically zero when no ingested frame has
contributed a mask-valid pixel (all counts `N[i] = 0`). -/
theorem C10_map_nonneg_and_zero (bs : ℕ) (st ht : ℚ) (w : ℕ) (fs : List Frame)
    (i : ℕ) (hfs : ∀ g ∈ fs, FrameGood w g) :
    0 ≤ (fs.foldl AccState.addFrame
      (ChromaticityAccumulator.init bs st ht)).generateHologramMap.getD i 0 ∧
    ((fs.foldl AccState.addFrame
        (ChromaticityAccumulator.init bs st ht)).nList.all
        (fun n => n == 0) = true →
      (fs.foldl AccState.addFrame
        (ChromaticityAccumulator.init bs st ht)).generateHologramMap.getD i 0
        = 0) := by
  obtain ⟨hgood, _⟩ := accGood_fold bs st ht w fs hfs
  set s := fs.foldl AccState.addFrame (ChromaticityAccumulator.init bs st ht)
    with hsdef
  by_cases hbr : s.initialized = false ∨ s.frame_count = 0
  · rw [AccState.generateHologramMap, if_pos hbr, getD_replicate_zero_q]
    exact ⟨le_refl 0, fun _ => rfl⟩
  · rw [AccState.generateHologramMap, if_neg hbr]
    have hkey := holomap_pointwise s.smList s.nList
      ((List.zipWith (fun c (n : ℕ) => if 0 < n then c / ((n : ℚ) + epsQ)
        else 0) s.csList s.nList).map (fun x => |x|))
      (max (s.buffer_size / 3) 5) i (by omega) (hgood.2.2.2.1 i).1
    refine ⟨hkey.1, fun hall => hkey.2 ?_⟩
    intro n hn
    have := List.all_eq_true.mp hall n hn
    exact eq_of_beq this

/-- C10 witness. -/
theorem C10_witness :
    0 ≤ ([frNeg].foldl AccState.addFrame
      (ChromaticityAccumulator.init 30 (1 / 5) 250)).generateHologramMap.getD
        0 0 ∧
    (([frNeg].foldl AccState.addFrame
        (ChromaticityAccumulator.init 30 (1 / 5) 250)).nList.all
        (fun n => n == 0) = true →
      ([frNeg].foldl AccState.addFrame
        (ChromaticityAccumulator.init 30 (1 / 5) 250)).generateHologramMap.getD
        0 0 = 0) :=
  C10_map_nonneg_and_zero 30 (1 / 5) 250 1 [frNeg] 0 (by decide)

/-! ## C6 (amended) — the regions pipeline -/

/-- C6 (amended): for every threshold in `[0,1]`, `get_hologram_regions`
binarises the non-normalised score map at `threshold × max(score)` when the
map attains a positive value and at `0.1` only otherwise (there is no `0.1`
floor in the positive case), then closes and opens with the 5×5 elliptical
kernel and returns the bounding box of each 8-connected component whose
area exceeds 100 pixels — i.e. it coincides with the amended
specification-side pipeline `regionsSpecAmended`. -/
theorem C6_amended_regions_pipeline (s : AccState) (θ : ℚ)
    (h0 : 0 ≤ θ) (h1 : θ ≤ 1) :
    (0 < maxQ s.generateHologramMap →
      regionsThresholdValue s.generateHologramMap θ =
        θ * maxQ s.generateHologramMap) ∧
    (maxQ s.generateHologramMap ≤ 0 →
      regionsThresholdValue s.generateHologramMap θ = 1 / 10) ∧
    s.getHologramRegions θ = regionsSpecAmended s θ := by
  refine ⟨fun hpos => ?_, fun hnp => ?_, rfl⟩
  · rw [regionsThresholdValue, if_pos hpos]
  · rw [regionsThresholdValue, if_neg (not_lt.mpr hnp)]

/-- C6 witness. -/
theorem C6_witness :
    (0 < maxQ accRed.generateHologramMap →
      regionsThresholdValue accRed.generateHologramMap (1 / 2) =
        (1 / 2) * maxQ accRed.generateHologramMap) ∧
    (maxQ accRed.generateHologramMap ≤ 0 →
      regionsThresholdValue accRed.generateHologramMap (1 / 2) = 1 / 10) ∧
    accRed.getHologramRegions (1 / 2) = regionsSpecAmended accRed (1 / 2) :=
  C6_amended_regions_pipeline accRed (1 / 2) (by norm_num) (by norm_num)

end MinaID
